import Mathlib

/-!
Verification development for the LibreChat custom MCP guardrail servers:
the restricted command executor (`mcp/exec-server/core.mjs`) and the
SSRF-hardened fetcher (`mcp/fetch-server/core.mjs`).

The JavaScript source is shallowly embedded: dynamically-typed request
objects become the inductive `JVal`; thrown `ToolError`s become
`Except ToolError _`; JS strings are modelled as Lean strings operated on
char-by-char (the reachable data is ASCII, where JS UTF-16 code units and
Lean chars coincide); JS 32-bit integer operations are embedded as `Nat`
arithmetic with explicit `% 2^32`.  External runtime facilities that are
not part of the repository (the WHATWG URL parser, the DNS resolver, the
HTTP transport, the spawned process) are inputs to the embedded functions,
so the theorems quantify over their behaviour.
-/

/-- Model of a dynamically-typed JavaScript/JSON value as received by a
tool-call handler.  `jint` is a JS number that passes `Number.isInteger`;
`jnum` is any other (non-integer or non-finite) number. -/
inductive JVal where
  | jnull
  | jbool (b : Bool)
  | jint (n : Int)
  | jnum
  | jstr (s : String)
  | jarr (elems : List JVal)
  | jobj (fields : List (String × JVal))

/-- JS property read `o[key]` on an object literal; `none` models
`undefined` (absent property). -/
def getField : List (String × JVal) → String → Option JVal
  | [], _ => none
  | (k, v) :: rest, key => if k = key then some v else getField rest key

/-- The classified error shape thrown by both engines (`class ToolError`
in both `core.mjs` files).  The structured `details` payload is not
modelled; the claims only concern the `code` (and fixed messages). -/
structure ToolError where
  code : String
  message : String
deriving DecidableEq, Repr

namespace FetchCore

def DEFAULT_TIMEOUT_MS : Int := 15000
def MAX_TIMEOUT_MS : Int := 30000
def DEFAULT_MAX_BYTES : Int := 500000
def MAX_MAX_BYTES : Int := 1000000
def DEFAULT_MAX_REDIRECTS : Int := 3
def MAX_MAX_REDIRECTS : Int := 5

/-- `isPlainObject` from `fetch-server/core.mjs`. -/
def isPlainObject : JVal → Bool
  | .jobj _ => true
  | _ => false

/-- `parseBoundedInt` from `fetch-server/core.mjs` (the exec server
contains a textually identical copy). -/
def parseBoundedInt (value : Option JVal) (field : String) (min max defaultValue : Int) :
    Except ToolError Int :=
  match value with
  | none => .ok defaultValue
  | some (.jint n) =>
    if n < min ∨ n > max then
      .error ⟨"INVALID_INPUT",
        field ++ " must be between " ++ toString min ++ " and " ++ toString max⟩
    else .ok n
  | some _ => .error ⟨"INVALID_INPUT", field ++ " must be an integer"⟩

/-- The typed fetch command produced by the parser. -/
structure FetchInput where
  url : String
  timeoutMs : Int
  maxBytes : Int
  maxRedirects : Int
deriving DecidableEq, Repr

/-- `parseFetchToolInput` from `fetch-server/core.mjs`. -/
def parseFetchToolInput (raw : JVal) : Except ToolError FetchInput := do
  match raw with
  | .jobj fields =>
    let url ← match getField fields "url" with
      | some (.jstr s) =>
        if s.length = 0 then
          .error (⟨"INVALID_INPUT", "url must be a non-empty string"⟩ : ToolError)
        else .ok s
      | _ => .error (⟨"INVALID_INPUT", "url must be a non-empty string"⟩ : ToolError)
    let timeoutMs ← parseBoundedInt (getField fields "timeoutMs") "timeoutMs"
      1 MAX_TIMEOUT_MS DEFAULT_TIMEOUT_MS
    let maxBytes ← parseBoundedInt (getField fields "maxBytes") "maxBytes"
      1024 MAX_MAX_BYTES DEFAULT_MAX_BYTES
    let maxRedirects ← parseBoundedInt (getField fields "maxRedirects") "maxRedirects"
      0 MAX_MAX_REDIRECTS DEFAULT_MAX_REDIRECTS
    return { url := url, timeoutMs := timeoutMs, maxBytes := maxBytes,
             maxRedirects := maxRedirects }
  | _ => .error ⟨"INVALID_INPUT", "arguments must be an object"⟩

end FetchCore

/-! ### Character-list utilities

JS string primitives (`split`, `lastIndexOf`, `slice`, `toLowerCase`) are
modelled on `List Char`.  `splitOnChar`/`splitOnDD` mirror
`String.prototype.split` with a one- resp. two-character separator:
non-overlapping, left-to-right, keeping empty pieces. -/

def splitOnChar (c : Char) : List Char → List (List Char)
  | [] => [[]]
  | x :: xs =>
    if x = c then [] :: splitOnChar c xs
    else
      match splitOnChar c xs with
      | [] => [[x]]
      | h :: t => (x :: h) :: t

/-- Prepend a character to the first piece of a split result. -/
def consHead (x : Char) : List (List Char) → List (List Char)
  | [] => [[x]]
  | h :: t => (x :: h) :: t

/-- Split on the two-character separator `"::"`. -/
def splitOnDD : List Char → List (List Char)
  | [] => [[]]
  | ':' :: ':' :: rest => [] :: splitOnDD rest
  | x :: xs => consHead x (splitOnDD xs)

/-- `String.prototype.lastIndexOf` for a single character (`none` models
the JS result `-1`). -/
def lastIdxOfAux (c : Char) : List Char → Nat → Option Nat → Option Nat
  | [], _, acc => acc
  | x :: xs, i, acc => lastIdxOfAux c xs (i + 1) (if x = c then some i else acc)

def lastIdxOf (c : Char) (l : List Char) : Option Nat := lastIdxOfAux c l 0 none

/-- `String.prototype.startsWith` (char-level; the data here is ASCII,
where JS UTF-16 code units and chars coincide). -/
def strStartsWith (s pre : String) : Bool := pre.toList.isPrefixOf s.toList

def isDigitChar (c : Char) : Bool := '0' ≤ c && c ≤ '9'

def digitVal (c : Char) : Nat := c.toNat - 48

/-- Decimal value of a digit string (`Number(p)` on a string matching
`/^[0-9]{1,3}$/`). -/
def decValueAux : List Char → Nat → Nat
  | [], acc => acc
  | c :: rest, acc => decValueAux rest (acc * 10 + digitVal c)

def decValue (l : List Char) : Nat := decValueAux l 0

def isHexDigitChar (c : Char) : Bool :=
  isDigitChar c || ('a' ≤ c && c ≤ 'f') || ('A' ≤ c && c ≤ 'F')

def isLowerHexChar (c : Char) : Bool := isDigitChar c || ('a' ≤ c && c ≤ 'f')

def hexVal (c : Char) : Nat := if isDigitChar c then c.toNat - 48 else c.toNat - 87

/-- `parseInt(h, 16)` on a string matching `/^[0-9a-f]{1,4}$/`. -/
def hexValueAux : List Char → Nat → Nat
  | [], acc => acc
  | c :: rest, acc => hexValueAux rest (acc * 16 + hexVal c)

def hexValue (l : List Char) : Nat := hexValueAux l 0

/-- Decimal digit as a character (used by the IPv4-mapped unwrap, whose
octets are < 256, hence digits < 10). -/
def digitChar : Nat → Char
  | 0 => '0' | 1 => '1' | 2 => '2' | 3 => '3' | 4 => '4'
  | 5 => '5' | 6 => '6' | 7 => '7' | 8 => '8' | 9 => '9'
  | _ => '?'

/-- JS `String(n)` for an octet value `n ≤ 255`: decimal, no leading
zeros. -/
def natDigits255 (n : Nat) : List Char :=
  if n ≥ 100 then [digitChar (n / 100), digitChar (n / 10 % 10), digitChar (n % 10)]
  else if n ≥ 10 then [digitChar (n / 10), digitChar (n % 10)]
  else [digitChar n]

namespace FetchCore

/-! ### IPv4 and IPv6 parsing (`fetch-server/core.mjs`) -/

/-- One octet of `ipv4ToInt`: the `/^[0-9]{1,3}$/` test followed by
`Number(p)` and the `0..255` range check. -/
def parseOctet (p : List Char) : Option Nat :=
  if (1 ≤ p.length && p.length ≤ 3) && p.all isDigitChar then
    if decValue p ≤ 255 then some (decValue p) else none
  else none

/-- The accumulating loop of `ipv4ToInt`: `value = (value << 8) | n`
under JS 32-bit semantics, with the final `>>> 0`. -/
def ipv4Accum : List (List Char) → Nat → Option Nat
  | [], value => some value
  | p :: rest, value =>
    match parseOctet p with
    | none => none
    | some n => ipv4Accum rest (((value <<< 8) % 4294967296) ||| n)

/-- `ipv4ToInt` from `fetch-server/core.mjs`. -/
def ipv4ToIntL (l : List Char) : Option Nat :=
  if (splitOnChar '.' l).length ≠ 4 then none else ipv4Accum (splitOnChar '.' l) 0

def ipv4ToInt (s : String) : Option Nat := ipv4ToIntL s.toList

/-! ### Model of Node's `net.isIP`

`net.isIP` is runtime library code (not in this repository); it is
modelled from Node's documented regular expressions: an IPv4 literal is
four dot-separated decimal octets `0..255` without leading zeros; an IPv6
literal is hex groups of 1–4 digits separated by `:`, at most one `::`
compression, an optional trailing IPv4 tail counting as two groups, an
optional `%zone` suffix, totalling exactly 8 groups without compression
and at most 7 with it. -/

/-- One decimal octet of Node's IPv4 regex
(`25[0-5]|2[0-4][0-9]|1[0-9][0-9]|[1-9][0-9]|[0-9]`). -/
def isV4SegL (p : List Char) : Bool :=
  (1 ≤ p.length && p.length ≤ 3) && p.all isDigitChar &&
  (p.length == 1 || p.head? != some '0') && decide (decValue p ≤ 255)

def netIsIPv4L (l : List Char) : Bool :=
  let ps := splitOnChar '.' l
  ps.length == 4 && ps.all isV4SegL

/-- One hex group of Node's IPv6 regex (`[0-9a-fA-F]{1,4}`). -/
def isV6SegL (p : List Char) : Bool :=
  (1 ≤ p.length && p.length ≤ 4) && p.all isHexDigitChar

/-- Counts the groups of a `:`-separated piece in which an IPv4 tail may
appear as the final element (worth two groups); fails on anything else. -/
def tailGroupsCount : List (List Char) → Option Nat
  | [] => some 0
  | [g] => if isV6SegL g then some 1 else if netIsIPv4L g then some 2 else none
  | g :: rest => if isV6SegL g then (tailGroupsCount rest).map (· + 1) else none

/-- Counts the groups of a `:`-separated piece that must be all-hex (the
part before a `::`). -/
def hexGroupsCount (gs : List (List Char)) : Option Nat :=
  if gs.all isV6SegL then some gs.length else none

/-- The main (zone-stripped) part of Node's IPv6 validation. -/
def netIsIPv6MainL (l : List Char) : Bool :=
  match splitOnDD l with
  | [single] =>
    match tailGroupsCount (splitOnChar ':' single) with
    | some n => n == 8
    | none => false
  | [h, t] =>
    let hc := if h.isEmpty then some 0 else hexGroupsCount (splitOnChar ':' h)
    let tc := if t.isEmpty then some 0 else tailGroupsCount (splitOnChar ':' t)
    match hc, tc with
    | some a, some b => decide (a + b ≤ 7)
    | _, _ => false
  | _ => false

/-- Characters permitted in a `%zone` suffix (`[0-9a-zA-Z-.:]`). -/
def isZoneChar (c : Char) : Bool := c.isAlphanum || c == '-' || c == '.' || c == ':'

def netIsIPv6L (l : List Char) : Bool :=
  match splitOnChar '%' l with
  | [main] => netIsIPv6MainL main
  | [main, zone] => netIsIPv6MainL main && decide (1 ≤ zone.length) && zone.all isZoneChar
  | _ => false

/-- Modelled from the spec and Node's documented behaviour: `net.isIP`,
returning 4, 6, or 0.  This runtime function is not part of the
repository; `isPrivateIp` dispatches on it. -/
def netIsIP (s : String) : Nat :=
  if netIsIPv4L s.toList then 4 else if netIsIPv6L s.toList then 6 else 0

/-- The `map` over head/tail hextets in `ipv6ToBigInt`: each group must
match `/^[0-9a-f]{1,4}$/` (the input was lower-cased), else the function
throws `INVALID_INPUT`. -/
def mapHexSegs : List (List Char) → Except ToolError (List Nat)
  | [] => .ok []
  | h :: rest =>
    if (1 ≤ h.length && h.length ≤ 4) && h.all isLowerHexChar then do
      let r ← mapHexSegs rest
      .ok (hexValue h :: r)
    else .error ⟨"INVALID_INPUT", "Invalid IPv6 address"⟩

/-- `ipv6ToBigInt` from `fetch-server/core.mjs`.  `input.slice(0,
lastColon)` with `lastColon = -1` (no colon present) drops the final
character, which `dropLast` reproduces. -/
def ipv6ToBigIntL (ipChars : List Char) : Except ToolError Nat := do
  let input := ipChars.map Char.toLower
  let hasEmbeddedIpv4 := input.contains '.'
  let (left, embedded) ←
    if hasEmbeddedIpv4 then
      let lastColon := lastIdxOf ':' input
      let v4Part := match lastColon with
        | some i => input.drop (i + 1)
        | none => input
      match ipv4ToIntL v4Part with
      | none => .error (⟨"INVALID_INPUT", "Invalid IPv6 address"⟩ : ToolError)
      | some v4Int =>
        let leftBase := match lastColon with
          | some i => input.take i
          | none => input.dropLast
        .ok (leftBase ++ [':', '0', ':', '0'],
             some ((v4Int >>> 16) &&& 65535, v4Int &&& 65535))
    else .ok (input, (none : Option (Nat × Nat)))
  let parts := splitOnDD left
  let headRaw := parts.headD []
  let tailRawOpt := parts[1]?
  let head := if headRaw.isEmpty then [] else
    (splitOnChar ':' headRaw).filter (fun s => s.length > 0)
  let tail := match tailRawOpt with
    | none => []
    | some t => if t.isEmpty then [] else (splitOnChar ':' t).filter (fun s => s.length > 0)
  let leftHasDD := parts.length > 1
  if ¬leftHasDD ∧ head.length + tail.length ≠ 8 then
    .error ⟨"INVALID_INPUT", "Invalid IPv6 address"⟩
  else do
    let headNums ← mapHexSegs head
    let tailNums ← mapHexSegs tail
    let hextets ←
      if leftHasDD then
        -- `missing = 8 - (head + tail)` in JS ints; `missing < 0` throws
        if head.length + tail.length > 8 then
          .error (⟨"INVALID_INPUT", "Invalid IPv6 address"⟩ : ToolError)
        else
          .ok (headNums ++ List.replicate (8 - (headNums.length + tailNums.length)) 0
               ++ tailNums)
      else .ok (headNums ++ tailNums)
    let hextets := match embedded with
      | some (h6, h7) => (hextets.set 6 h6).set 7 h7
      | none => hextets
    if hextets.length ≠ 8 then .error ⟨"INVALID_INPUT", "Invalid IPv6 address"⟩
    else .ok (hextets.foldl (fun r h => (r <<< 16) + h) 0)

def ipv6ToBigInt (s : String) : Except ToolError Nat := ipv6ToBigIntL s.toList

/-! ### `isPrivateIp` -/

/-- `ipv6InCidr` from `fetch-server/core.mjs`. -/
def ipv6InCidr (addr p bits : Nat) : Bool :=
  (addr >>> (128 - bits)) == (p >>> (128 - bits))

/-- The mask computation `(~0 >>> (32 - maskBits)) << (32 - maskBits)`
inside `isPrivateIp`, as an unsigned 32-bit value (all call sites use
`maskBits` between 4 and 24, where JS shift counts are unreduced). -/
def jsMask32 (maskBits : Nat) : Nat :=
  if maskBits = 0 then 0
  else ((4294967295 >>> (32 - maskBits)) <<< (32 - maskBits)) % 4294967296

/-- The `inCidr` closure of `isPrivateIp` (signed JS `&`/`===` agree with
the unsigned embedding since both sides use the same bit pattern). -/
def inCidr4 (v b maskBits : Nat) : Bool :=
  (v &&& jsMask32 maskBits) == (b &&& jsMask32 maskBits)

/-- The `base` closure of `isPrivateIp`. -/
def base4 (a b c d : Nat) : Nat :=
  ((a <<< 24) ||| (b <<< 16) ||| (c <<< 8) ||| d) % 4294967296

/-- The IPv4 private/reserved-range disjunction of `isPrivateIp`. -/
def ipv4PrivateTable (v : Nat) : Bool :=
  inCidr4 v (base4 0 0 0 0) 8 ||
  inCidr4 v (base4 10 0 0 0) 8 ||
  inCidr4 v (base4 100 64 0 0) 10 ||
  inCidr4 v (base4 127 0 0 0) 8 ||
  inCidr4 v (base4 169 254 0 0) 16 ||
  inCidr4 v (base4 172 16 0 0) 12 ||
  inCidr4 v (base4 192 168 0 0) 16 ||
  inCidr4 v (base4 192 0 0 0) 24 ||
  inCidr4 v (base4 192 0 2 0) 24 ||
  inCidr4 v (base4 198 18 0 0) 15 ||
  inCidr4 v (base4 198 51 100 0) 24 ||
  inCidr4 v (base4 203 0 113 0) 24 ||
  inCidr4 v (base4 224 0 0 0) 4 ||
  inCidr4 v (base4 240 0 0 0) 4

/-- The `version === 4` branch of `isPrivateIp`: a `null` parse is
private (fail closed), otherwise the range table decides. -/
def isPrivateIpv4StrL (l : List Char) : Bool :=
  match ipv4ToIntL l with
  | none => true
  | some v => ipv4PrivateTable v

/-- The dotted-quad string rebuilt for an IPv4-mapped address
(`` `${(v4>>>24)&0xff}.${...}` `` in the source). -/
def v4ToDotted (v4 : Nat) : List Char :=
  natDigits255 ((v4 >>> 24) &&& 255) ++ '.' ::
  (natDigits255 ((v4 >>> 16) &&& 255) ++ '.' ::
  (natDigits255 ((v4 >>> 8) &&& 255) ++ '.' :: natDigits255 (v4 &&& 255)))

/-- `isPrivateIp` from `fetch-server/core.mjs`.  The source's recursive
call `isPrivateIp(ip4)` on the rebuilt dotted quad always hits the
`version === 4` branch (the rebuilt string is a valid IPv4 literal, see
`netIsIPv4_v4ToDotted`), so it is inlined as `isPrivateIpv4StrL`. -/
def isPrivateIpL (l : List Char) : Except ToolError Bool :=
  if netIsIPv4L l then .ok (isPrivateIpv4StrL l)
  else if netIsIPv6L l then do
    let addr ← ipv6ToBigIntL l
    if addr = 0 ∨ addr = 1 then .ok true
    else if addr >>> 32 = 65535 then
      .ok (isPrivateIpv4StrL (v4ToDotted (addr &&& 4294967295)))
    else
      .ok (ipv6InCidr addr 0xfc000000000000000000000000000000 7 ||
           ipv6InCidr addr 0xfe800000000000000000000000000000 10 ||
           ipv6InCidr addr 0xff000000000000000000000000000000 8 ||
           ipv6InCidr addr 0x20010db8000000000000000000000000 32)
  else .ok true

def isPrivateIp (s : String) : Except ToolError Bool := isPrivateIpL s.toList

end FetchCore

namespace ExecCore

def WORKSPACE_CWD : String := "/workspace"
def ALLOWED_COMMANDS : List String := ["git", "npm", "node"]
def DEFAULT_TIMEOUT_MS : Int := 60000
def MAX_TIMEOUT_MS : Int := 120000
def DEFAULT_MAX_OUTPUT_BYTES : Int := 200000
def MAX_MAX_OUTPUT_BYTES : Int := 1000000
def MAX_ARGS : Nat := 64
def MAX_ARG_LENGTH : Nat := 8192
def MAX_STDIN_BYTES : Nat := 200000

/-- `parseBoundedInt` from `exec-server/core.mjs` (textually identical to
the fetch server's copy). -/
def parseBoundedInt (value : Option JVal) (field : String) (min max defaultValue : Int) :
    Except ToolError Int :=
  match value with
  | none => .ok defaultValue
  | some (.jint n) =>
    if n < min ∨ n > max then
      .error ⟨"INVALID_INPUT",
        field ++ " must be between " ++ toString min ++ " and " ++ toString max⟩
    else .ok n
  | some _ => .error ⟨"INVALID_INPUT", field ++ " must be an integer"⟩

/-- Element-wise check of `parseArgs`: arg length cap, then NUL-byte scan,
in source order (first offending argument wins). -/
def checkArgList : List String → Except ToolError Unit
  | [] => .ok ()
  | arg :: rest =>
    if arg.length > MAX_ARG_LENGTH then
      .error ⟨"INVALID_INPUT", "arg too long (>8192)"⟩
    else if arg.contains (Char.ofNat 0) then
      .error ⟨"INVALID_INPUT", "args must not contain NUL bytes"⟩
    else checkArgList rest

/-- Extracts the string elements of a JS array, failing on any
non-string element (`value.some((v) => typeof v !== 'string')`). -/
def asStringList : List JVal → Option (List String)
  | [] => some []
  | .jstr s :: rest => (asStringList rest).map (s :: ·)
  | _ => none

/-- `parseArgs` from `exec-server/core.mjs`. -/
def parseArgs (value : Option JVal) : Except ToolError (List String) :=
  match value with
  | none => .ok []
  | some (.jarr elems) =>
    match asStringList elems with
    | none => .error ⟨"INVALID_INPUT", "args must be an array of strings"⟩
    | some args =>
      if args.length > MAX_ARGS then
        .error ⟨"INVALID_INPUT", "args length must be <= 64"⟩
      else do
        checkArgList args
        return args
  | some _ => .error ⟨"INVALID_INPUT", "args must be an array of strings"⟩

/-- The `git` branch of `validateDisallowedCwdArgs`: per argument, the
three denial checks in source order. -/
def validateGitArgs : List String → Except ToolError Unit
  | [] => .ok ()
  | a :: rest =>
    if a = "-C" ∨ (strStartsWith a "-C" ∧ a.length > 2) then
      .error ⟨"DISALLOWED_ARGUMENT", "Disallowed argument: " ++ a⟩
    else if a = "--git-dir" ∨ strStartsWith a "--git-dir=" then
      .error ⟨"DISALLOWED_ARGUMENT", "Disallowed argument: " ++ a⟩
    else if a = "--work-tree" ∨ strStartsWith a "--work-tree=" then
      .error ⟨"DISALLOWED_ARGUMENT", "Disallowed argument: " ++ a⟩
    else validateGitArgs rest

/-- The `npm` branch of `validateDisallowedCwdArgs`; the indexed loop
reading `args[i + 1]` becomes recursion that inspects the list head and
its successor. -/
def validateNpmArgs : List String → Except ToolError Unit
  | [] => .ok ()
  | a :: rest =>
    if a = "--prefix" ∨ strStartsWith a "--prefix=" then
      .error ⟨"DISALLOWED_ARGUMENT", "Disallowed argument: " ++ a⟩
    else if a = "--global" ∨ a = "-g" ∨ strStartsWith a "--location=global" then
      .error ⟨"DISALLOWED_ARGUMENT", "Disallowed argument: " ++ a⟩
    else if a = "--location" ∧ rest.head? = some "global" then
      .error ⟨"DISALLOWED_ARGUMENT", "Disallowed argument: --location global"⟩
    else validateNpmArgs rest

/-- `validateDisallowedCwdArgs` from `exec-server/core.mjs`. -/
def validateDisallowedCwdArgs (command : String) (args : List String) :
    Except ToolError Unit :=
  if command = "git" then validateGitArgs args
  else if command = "npm" then validateNpmArgs args
  else .ok ()

/-- The typed exec command produced by the parser. -/
structure ExecInput where
  command : String
  args : List String
  stdin : Option String
  timeoutMs : Int
  maxOutputBytes : Int
deriving DecidableEq, Repr

/-- `parseExecToolInput` from `exec-server/core.mjs`.  `Buffer.byteLength
(stdin, 'utf8')` is modelled by `String.utf8ByteSize`. -/
def parseExecToolInput (raw : JVal) : Except ToolError ExecInput := do
  match raw with
  | .jobj fields =>
    let command ← match getField fields "command" with
      | some (.jstr s) =>
        if s ∈ ALLOWED_COMMANDS then .ok s
        else .error (⟨"COMMAND_NOT_ALLOWED", "command must be one of: git, npm, node"⟩ : ToolError)
      | _ => .error (⟨"COMMAND_NOT_ALLOWED", "command must be one of: git, npm, node"⟩ : ToolError)
    let args ← parseArgs (getField fields "args")
    validateDisallowedCwdArgs command args
    let timeoutMs ← parseBoundedInt (getField fields "timeoutMs") "timeoutMs"
      1 MAX_TIMEOUT_MS DEFAULT_TIMEOUT_MS
    let maxOutputBytes ← parseBoundedInt (getField fields "maxOutputBytes") "maxOutputBytes"
      1024 MAX_MAX_OUTPUT_BYTES DEFAULT_MAX_OUTPUT_BYTES
    let stdin ← match getField fields "stdin" with
      | none => .ok (none : Option String)
      | some (.jstr s) =>
        if s ≠ "" ∧ s.utf8ByteSize > MAX_STDIN_BYTES then
          .error (⟨"INVALID_INPUT", "stdin too large (>200000 bytes)"⟩ : ToolError)
        else .ok (some s)
      | some _ => .error (⟨"INVALID_INPUT", "stdin must be a string"⟩ : ToolError)
    return { command := command, args := args, stdin := stdin,
             timeoutMs := timeoutMs, maxOutputBytes := maxOutputBytes }
  | _ => .error ⟨"INVALID_INPUT", "arguments must be an object"⟩

/-! ### Byte-bounded output collector (`createCollector`) -/

/-- The mutable state of a `createCollector` instance: the concatenated
retained bytes, the byte count, and the truncation flag. -/
structure CollectorState where
  kept : List Nat
  bytes : Nat
  truncated : Bool
deriving DecidableEq, Repr

/-- One `onData(chunk)` call of `createCollector` (chunks are byte
lists; the `Buffer.isBuffer` guard is part of the typed embedding). -/
def collectorStep (maxBytes : Nat) (st : CollectorState) (chunk : List Nat) :
    CollectorState :=
  if st.bytes ≥ maxBytes then { st with truncated := true }
  else if chunk.length > maxBytes - st.bytes then
    { kept := st.kept ++ chunk.take (maxBytes - st.bytes), bytes := maxBytes,
      truncated := true }
  else { st with kept := st.kept ++ chunk, bytes := st.bytes + chunk.length }

/-- A collector fed the whole sequence of `data` events. -/
def runCollector (maxBytes : Nat) (chunks : List (List Nat)) : CollectorState :=
  chunks.foldl (collectorStep maxBytes) ⟨[], 0, false⟩

/-! ### Process runner (`runExecTool`)

The spawned process, the wall-clock timer and the cancellation signal are
external; their observable behaviour during one invocation is an
`ExecEnv`: whether `spawn` throws, whether the caller's signal was
already aborted at start, whether it fires before the child closes,
whether the timeout timer fires before the child closes, the `data`
chunks delivered on each stream, and the `close` (or `error`) event. -/

structure ExecEnv where
  spawnFails : Bool
  abortedAtStart : Bool
  abortsDuring : Bool
  timeoutFires : Bool
  childErrors : Bool
  stdoutChunks : List (List Nat)
  stderrChunks : List (List Nat)
  closeCode : Option Int
  closeSignal : Option String

/-- The success payload of `runExecTool` (`durationMs`, a wall-clock
reading, is not modelled). -/
structure ExecResult where
  cwd : String
  command : String
  args : List String
  exitCode : Option Int
  signal : Option String
  timedOut : Bool
  stdout : List Nat
  stderr : List Nat
  stdoutTruncated : Bool
  stderrTruncated : Bool
deriving DecidableEq, Repr

/-- Outcome of one `runExecTool` invocation, instrumented with whether a
process was spawned and whether `killProcessGroup` ran. -/
structure ExecRun where
  result : Except ToolError ExecResult
  spawned : Bool
  killedGroup : Bool

/-- `runExecTool` from `exec-server/core.mjs`.  Control flow mirrors the
source: spawn (throws become `SPAWN_FAILED`), then the already-aborted
check (kill + `ABORTED`), then the child runs to its `close` or `error`
event while the collectors consume `data` events; a firing timeout or
abort signal kills the process group; after `close`, a fired timeout
yields `TIMEOUT`, a non-zero (or `null`) exit code yields
`NON_ZERO_EXIT`, else success.  `TIMEOUT`/`NON_ZERO_EXIT` carry the full
outcome as `details`, which is not modelled. -/
def runExecTool (input : ExecInput) (env : ExecEnv) : ExecRun :=
  if env.spawnFails then
    { result := .error ⟨"SPAWN_FAILED", "Failed to spawn process"⟩,
      spawned := false, killedGroup := false }
  else if env.abortedAtStart then
    { result := .error ⟨"ABORTED", "Request aborted"⟩,
      spawned := true, killedGroup := true }
  else
    let stdoutC := runCollector input.maxOutputBytes.toNat env.stdoutChunks
    let stderrC := runCollector input.maxOutputBytes.toNat env.stderrChunks
    let killed := env.timeoutFires || env.abortsDuring
    if env.childErrors then
      { result := .error ⟨"EXEC_FAILED", "Process execution failed"⟩,
        spawned := true, killedGroup := killed }
    else
      let outcome : ExecResult :=
        { cwd := WORKSPACE_CWD, command := input.command, args := input.args,
          exitCode := env.closeCode, signal := env.closeSignal,
          timedOut := env.timeoutFires,
          stdout := stdoutC.kept, stderr := stderrC.kept,
          stdoutTruncated := stdoutC.truncated, stderrTruncated := stderrC.truncated }
      if env.timeoutFires then
        { result := .error ⟨"TIMEOUT", "Process timed out"⟩,
          spawned := true, killedGroup := killed }
      else if env.closeCode ≠ some 0 then
        { result := .error ⟨"NON_ZERO_EXIT", "Process exited with non-zero status"⟩,
          spawned := true, killedGroup := killed }
      else
        { result := .ok outcome, spawned := true, killedGroup := killed }

/-- The exec server's `CallToolRequestSchema` handler body: parse, then
run.  On a parse failure the runner is never entered, so nothing is
spawned. -/
def handleExecCall (raw : JVal) (env : ExecEnv) : ExecRun :=
  match parseExecToolInput raw with
  | .error e => { result := .error e, spawned := false, killedGroup := false }
  | .ok input => runExecTool input env

end ExecCore

namespace FetchCore

/-! ### Network policy engine (`assertUrlAllowed`) -/

/-- The relevant components of a WHATWG `URL` object.  `new URL(...)` is
runtime library code, so URL parsing is an input of the model; `href`
models `url.toString()`. -/
structure JsUrl where
  href : String
  protocol : String
  username : String
  password : String
  hostname : String
deriving DecidableEq, Repr

/-- `normalizeHostname`: strip one trailing dot, lower-case. -/
def normalizeHostnameL (h : List Char) : List Char :=
  (if h.getLast? = some '.' then h.dropLast else h).map Char.toLower

/-- `isBlockedHostname`. -/
def isBlockedHostnameL (hostname : List Char) : Bool :=
  let h := normalizeHostnameL hostname
  h == "localhost".toList ||
  (".local".toList.isSuffixOf h || ".internal".toList.isSuffixOf h)

/-- The `for (const a of addrs)` loop over DNS results: the first
private address raises `SSRF_BLOCKED`; a `ToolError` thrown by
`isPrivateIp` itself propagates. -/
def checkResolvedAddrs : List String → Except ToolError Unit
  | [] => .ok ()
  | a :: rest => do
    let p ← isPrivateIp a
    if p then .error ⟨"SSRF_BLOCKED", "Blocked resolved IP address"⟩
    else checkResolvedAddrs rest

/-- `assertUrlAllowed` from `fetch-server/core.mjs`.  `parsed` is the
result of `new URL(urlString)` (`none` = the constructor threw);
`lookup` is the settled result of `dnsLookup(hostname, {all: true,
verbatim: true})`, consulted only on the non-literal-IP path. -/
def assertUrlAllowed (parsed : Option JsUrl) (lookup : Except String (List String)) :
    Except ToolError JsUrl :=
  match parsed with
  | none => .error ⟨"INVALID_URL", "Invalid URL"⟩
  | some url =>
    if url.protocol ≠ "http:" ∧ url.protocol ≠ "https:" then
      .error ⟨"INVALID_URL", "Only http and https URLs are allowed"⟩
    else if url.username ≠ "" ∨ url.password ≠ "" then
      .error ⟨"INVALID_URL", "Userinfo in URL is not allowed"⟩
    else if url.hostname = "" then
      .error ⟨"INVALID_URL", "URL hostname is required"⟩
    else if isBlockedHostnameL url.hostname.toList then
      .error ⟨"SSRF_BLOCKED", "Blocked hostname"⟩
    else if netIsIP url.hostname ≠ 0 then
      match isPrivateIp url.hostname with
      | .error e => .error e
      | .ok true => .error ⟨"SSRF_BLOCKED", "Blocked IP address"⟩
      | .ok false => .ok url
    else
      match lookup with
      | .error _ => .error ⟨"DNS_FAILED", "DNS lookup failed"⟩
      | .ok addrs =>
        match checkResolvedAddrs addrs with
        | .error e => .error e
        | .ok () => .ok url

/-! ### Body reader (`readBodyText`) -/

/-- Result of `readBodyText`: the bytes fed to the UTF-8 decoder (text
decoding itself is abstracted to the byte level), the byte count, and
the truncation flag. -/
structure BodyRead where
  bodyBytes : List Nat
  bytesRead : Nat
  truncated : Bool
deriving DecidableEq, Repr

/-- The `while (true)` read loop of `readBodyText`. -/
def readBodyGo (maxBytes : Int) : List (List Nat) → List Nat → Nat → BodyRead
  | [], kept, bytesRead => ⟨kept, bytesRead, false⟩
  | chunk :: rest, kept, bytesRead =>
    let remaining : Int := maxBytes - bytesRead
    if remaining ≤ 0 then ⟨kept, bytesRead, true⟩
    else if (chunk.length : Int) > remaining then
      ⟨kept ++ chunk.take remaining.toNat, bytesRead + remaining.toNat, true⟩
    else readBodyGo maxBytes rest (kept ++ chunk) (bytesRead + chunk.length)

/-- `readBodyText` from `fetch-server/core.mjs` over the stream's chunk
sequence (a `null` body is the empty sequence). -/
def readBodyText (maxBytes : Int) (chunks : List (List Nat)) : BodyRead :=
  readBodyGo maxBytes chunks [] 0

/-! ### Guarded redirect fetcher (`fetchWithGuards`)

The HTTP transport, DNS, URL parsing and the cancellation signal are
external; a `FetchEnv` fixes their behaviour, per loop iteration where
the code consults them repeatedly.  The model emits a trace event at the
`assertUrlAllowed` call site and at the `fetchImpl` call site, so that
the per-hop-validation property is a statement about every trace the
loop can produce. -/

def isRedirectStatus (status : Nat) : Bool :=
  status == 301 || status == 302 || status == 303 || status == 307 || status == 308

/-- `headersToRecord`: lower-cased keys (last write wins under
association-list semantics). -/
def headersToRecord (hs : List (String × String)) : List (String × String) :=
  hs.map (fun kv => (kv.1.toLower, kv.2))

structure FetchResponse where
  status : Nat
  statusText : String
  ok : Bool
  locationHeader : Option String
  headers : List (String × String)
  bodyChunks : List (List Nat)

structure FetchEnv where
  parseUrl : String → Option JsUrl
  resolveUrl : String → String → Option String
  lookup : Nat → String → Except String (List String)
  fetchImpl : Nat → String → Except String FetchResponse
  abortedAt : Nat → Bool

inductive FetchEv where
  | validated (source : String) (href : String)
  | requested (href : String)
deriving DecidableEq, Repr

structure Redirect where
  status : Nat
  location : String
deriving DecidableEq, Repr

structure FetchOutcome where
  url : String
  status : Nat
  statusText : String
  ok : Bool
  headers : List (String × String)
  bodyBytes : List Nat
  truncated : Bool
  bytesRead : Nat
  redirects : List Redirect

/-- One iteration's policy check: `new URL` (throw = `INVALID_URL` from
`assertUrlAllowed`'s own catch), then `assertUrlAllowed` proper with
this iteration's DNS behaviour. -/
def assertUrlAllowedEnv (env : FetchEnv) (iter : Nat) (s : String) :
    Except ToolError JsUrl :=
  match env.parseUrl s with
  | none => .error ⟨"INVALID_URL", "Invalid URL"⟩
  | some url => assertUrlAllowed (some url) (env.lookup iter url.hostname)

/-- The redirect loop of `fetchWithGuards`, by remaining iterations
(`maxRedirects + 1` down to 0).  A transport rejection — including the
per-request timeout or an external abort arriving mid-request — is
`FETCH_FAILED`; an abort signal already fired when an iteration reaches
the pre-request check is `ABORTED`; a redirect `Location` that `new
URL(location, base)` cannot parse escapes as an unclassified fault,
which the transport adapter renders as `INTERNAL_ERROR`. -/
def fetchGo (env : FetchEnv) (input : FetchInput) :
    Nat → String → List Redirect → List FetchEv × Except ToolError FetchOutcome
  | 0, _, _ => ([], .error ⟨"TOO_MANY_REDIRECTS", "Too many redirects"⟩)
  | fuel + 1, current, redirects =>
    match assertUrlAllowedEnv env fuel current with
    | .error e => ([], .error e)
    | .ok url =>
      if env.abortedAt fuel then
        ([.validated current url.href], .error ⟨"ABORTED", "Request aborted"⟩)
      else
        match env.fetchImpl fuel url.href with
        | .error _ =>
          ([.validated current url.href, .requested url.href],
           .error ⟨"FETCH_FAILED", "Fetch failed"⟩)
        | .ok resp =>
          let tr0 := [FetchEv.validated current url.href, FetchEv.requested url.href]
          if isRedirectStatus resp.status then
            match resp.locationHeader with
            | none => (tr0, .error ⟨"FETCH_FAILED", "Redirect response missing Location header"⟩)
            | some loc =>
              match env.resolveUrl loc url.href with
              | none => (tr0, .error ⟨"INTERNAL_ERROR", "Invalid redirect URL"⟩)
              | some next =>
                let rec_ := fetchGo env input fuel next (redirects ++ [⟨resp.status, next⟩])
                (tr0 ++ rec_.1, rec_.2)
          else
            let br := readBodyText input.maxBytes resp.bodyChunks
            (tr0, .ok { url := url.href, status := resp.status,
                        statusText := resp.statusText, ok := resp.ok,
                        headers := headersToRecord resp.headers,
                        bodyBytes := br.bodyBytes, truncated := br.truncated,
                        bytesRead := br.bytesRead, redirects := redirects })

/-- `fetchWithGuards` from `fetch-server/core.mjs`, returning the
instrumented event trace together with the result. -/
def fetchWithGuards (env : FetchEnv) (input : FetchInput) :
    List FetchEv × Except ToolError FetchOutcome :=
  fetchGo env input (input.maxRedirects.toNat + 1) input.url []

end FetchCore

/-! ### Specification-side definitions

These formalise the spec's wording independently of the source, for the
refinement-style claims: the private-range tables as explicit value
intervals derived from the CIDR notation of §4.4, the disallowed-argument
patterns of §8, and the per-hop-validation trace property of §4.5/§9. -/

/-- The spec's IPv4 private/reserved table (each CIDR block `a.b.c.d/k`
as the value interval it denotes). -/
def specPrivateV4 (v : Nat) : Prop :=
  v < 16777216 ∨                                   -- 0.0.0.0/8
  (167772160 ≤ v ∧ v < 184549376) ∨                -- 10/8
  (1681915904 ≤ v ∧ v < 1686110208) ∨              -- 100.64/10
  (2130706432 ≤ v ∧ v < 2147483648) ∨              -- 127/8
  (2851995648 ≤ v ∧ v < 2852061184) ∨              -- 169.254/16
  (2886729728 ≤ v ∧ v < 2887778304) ∨              -- 172.16/12
  (3232235520 ≤ v ∧ v < 3232301056) ∨              -- 192.168/16
  (3221225472 ≤ v ∧ v < 3221225728) ∨              -- 192.0.0/24
  (3221225984 ≤ v ∧ v < 3221226240) ∨              -- 192.0.2/24
  (3323068416 ≤ v ∧ v < 3323199488) ∨              -- 198.18/15
  (3325256704 ≤ v ∧ v < 3325256960) ∨              -- 198.51.100/24
  (3405803776 ≤ v ∧ v < 3405804032) ∨              -- 203.0.113/24
  (3758096384 ≤ v ∧ v < 4026531840) ∨              -- 224/4
  4026531840 ≤ v                                   -- 240/4 (within 2^32)

/-- The spec's IPv6 table over the 128-bit value: unspecified, loopback,
the listed prefixes, and the IPv4-mapped case unwrapped and re-checked
against the IPv4 table. -/
def specPrivateV6 (addr : Nat) : Prop :=
  addr = 0 ∨ addr = 1 ∨
  (addr >>> 32 = 65535 ∧ specPrivateV4 (addr % 4294967296)) ∨
  (0xfc000000000000000000000000000000 ≤ addr ∧
    addr < 0xfe000000000000000000000000000000) ∨   -- fc00::/7
  (0xfe800000000000000000000000000000 ≤ addr ∧
    addr < 0xfec00000000000000000000000000000) ∨   -- fe80::/10
  (0xff000000000000000000000000000000 ≤ addr ∧
    addr < 0x100000000000000000000000000000000) ∨  -- ff00::/8
  (0x20010db8000000000000000000000000 ≤ addr ∧
    addr < 0x20010db9000000000000000000000000)     -- 2001:db8::/32

/-- The spec's disallowed `git` argument patterns: `-C`, `-C<path>`,
`--git-dir`, `--git-dir=...`, `--work-tree`, `--work-tree=...`. -/
def gitDeniedArg (a : String) : Prop :=
  a = "-C" ∨ (strStartsWith a "-C" ∧ a.length > 2) ∨
  a = "--git-dir" ∨ strStartsWith a "--git-dir=" ∨
  a = "--work-tree" ∨ strStartsWith a "--work-tree="

/-- The spec's disallowed single-token `npm` argument patterns:
`--prefix`, `--prefix=...`, `-g`, `--global`, `--location=global`. -/
def npmDeniedArg (a : String) : Prop :=
  a = "--prefix" ∨ strStartsWith a "--prefix=" ∨
  a = "-g" ∨ a = "--global" ∨ a = "--location=global"

/-- Per-hop validation as a trace property: every `requested u` event is
immediately preceded by a validation event whose engine output is `u`
(the request target passed the Network Policy Engine in the same
iteration). -/
def RequestedGuarded (tr : List FetchCore.FetchEv) : Prop :=
  ∀ p u rest, tr = p ++ .requested u :: rest →
    ∃ s, p.getLast? = some (.validated s u)

/-! ## Theorems

Helper lemmas first, then one theorem per claim (with witness or
counterexample theorems as required). -/

/-- Inversion for `Except` bind chains (the embedded `do` blocks). -/
theorem except_bind_ok {α β ε : Type} {x : Except ε α} {f : α → Except ε β} {b : β} :
    (x >>= f) = .ok b ↔ ∃ a, x = .ok a ∧ f a = .ok b := by
  cases x <;> simp [Bind.bind, Except.bind]

/-- A bind whose first component already failed never yields `ok`. -/
theorem except_err_bind {α β ε : Type} {e : ε} {f : α → Except ε β} {b : β} :
    ¬((Except.error e : Except ε α) >>= f) = .ok b := by
  simp [Bind.bind, Except.bind]

/-- A property read is unaffected by appending an entry under a
different key. -/
theorem getField_append_of_ne (fields : List (String × JVal)) (k key : String) (v : JVal)
    (h : k ≠ key) : getField (fields ++ [(k, v)]) key = getField fields key := by
  induction fields with
  | nil => simp [getField, h]
  | cons p rest ih =>
    by_cases hk : p.1 = key <;> simp [getField, hk, ih]

namespace FetchCore

theorem fetch_parseBoundedInt_ok_bounds {v : Option JVal} {field : String} {min max dflt n : Int}
    (hmin : min ≤ dflt) (hmax : dflt ≤ max)
    (h : parseBoundedInt v field min max dflt = .ok n) : min ≤ n ∧ n ≤ max := by
  cases v with
  | none =>
    simp only [parseBoundedInt] at h
    cases h
    exact ⟨hmin, hmax⟩
  | some jv =>
    cases jv <;> simp only [parseBoundedInt] at h <;> try cases h
    case jint m =>
      split at h
      · cases h
      · cases h
        next hc => push_neg at hc; exact hc

end FetchCore

namespace ExecCore

theorem exec_parseBoundedInt_ok_bounds {v : Option JVal} {field : String} {min max dflt n : Int}
    (hmin : min ≤ dflt) (hmax : dflt ≤ max)
    (h : parseBoundedInt v field min max dflt = .ok n) : min ≤ n ∧ n ≤ max := by
  cases v with
  | none =>
    simp only [parseBoundedInt] at h
    cases h
    exact ⟨hmin, hmax⟩
  | some jv =>
    cases jv <;> simp only [parseBoundedInt] at h <;> try cases h
    case jint m =>
      split at h
      · cases h
      · cases h
        next hc => push_neg at hc; exact hc

end ExecCore

/-- An unparseable host string takes neither `isPrivateIp` branch and
falls through to `return true`. -/
theorem isPrivateIpL_of_invalid (l : List Char)
    (h4 : FetchCore.netIsIPv4L l = false) (h6 : FetchCore.netIsIPv6L l = false) :
    FetchCore.isPrivateIpL l = .ok true := by
  unfold FetchCore.isPrivateIpL
  rw [h4, h6]
  simp

/-- C10: for every string that is neither a syntactically valid IPv4
address nor a syntactically valid IPv6 address (per the `net.isIP`
classifier `isPrivateIp` dispatches on), `isPrivateIp` returns `true`:
an unparseable host is classified as private/blocked, never public. -/
theorem claim_C10 (s : String) (h4 : FetchCore.netIsIP s ≠ 4) (h6 : FetchCore.netIsIP s ≠ 6) :
    FetchCore.isPrivateIp s = .ok true := by
  have hv4 : FetchCore.netIsIPv4L s.toList = false := by
    cases b : FetchCore.netIsIPv4L s.toList
    · rfl
    · have b2 : FetchCore.netIsIPv4L s.data = true := b
      exact absurd (by simp [FetchCore.netIsIP, b2]) h4
  have hv6 : FetchCore.netIsIPv6L s.toList = false := by
    cases b : FetchCore.netIsIPv6L s.toList
    · rfl
    · have hv4d : FetchCore.netIsIPv4L s.data = false := hv4
      have b2 : FetchCore.netIsIPv6L s.data = true := b
      exact absurd (by simp [FetchCore.netIsIP, hv4d, b2]) h6
  exact isPrivateIpL_of_invalid s.toList hv4 hv6

theorem claim_C10_witness :
    FetchCore.netIsIP "not-an-ip" ≠ 4 ∧ FetchCore.netIsIP "not-an-ip" ≠ 6 ∧
    FetchCore.isPrivateIp "not-an-ip" = .ok true :=
  ⟨by decide, by decide, claim_C10 "not-an-ip" (by decide) (by decide)⟩

/-- C2 counterexample: an input carrying the unrecognized field `extra`
is accepted by `parseFetchToolInput` (and similarly by
`parseExecToolInput`), with no `INVALID_INPUT` error — refuting the
claim that unrecognized fields are rejected. -/
theorem claim_C2_counterexample :
    FetchCore.parseFetchToolInput
        (.jobj [("url", .jstr "http://example.com"), ("extra", .jint 1)]) =
      .ok ⟨"http://example.com", 15000, 500000, 3⟩ ∧
    ExecCore.parseExecToolInput
        (.jobj [("command", .jstr "git"), ("extra", .jint 1)]) =
      .ok ⟨"git", [], none, 60000, 200000⟩ ∧
    ("extra" ∈ ["url", "timeoutMs", "maxBytes", "maxRedirects"] → False) ∧
    ("extra" ∈ ["command", "args", "stdin", "timeoutMs", "maxOutputBytes"] → False) :=
  ⟨rfl, rfl, by decide, by decide⟩

/-- C2 (amended): unrecognized fields are silently ignored, not
rejected: each parser reads only its recognized fields, so adding any
entry under an unrecognized key leaves the parse result unchanged (in
particular nothing unvalidated is smuggled downstream). -/
theorem claim_C2_amended :
    (∀ fields (k : String) (v : JVal),
       k ∉ ["url", "timeoutMs", "maxBytes", "maxRedirects"] →
       FetchCore.parseFetchToolInput (.jobj (fields ++ [(k, v)])) =
         FetchCore.parseFetchToolInput (.jobj fields)) ∧
    (∀ fields (k : String) (v : JVal),
       k ∉ ["command", "args", "stdin", "timeoutMs", "maxOutputBytes"] →
       ExecCore.parseExecToolInput (.jobj (fields ++ [(k, v)])) =
         ExecCore.parseExecToolInput (.jobj fields)) := by
  constructor
  · intro fields k v hk
    simp only [List.mem_cons, List.not_mem_nil, or_false, not_or] at hk
    obtain ⟨h1, h2, h3, h4⟩ := hk
    simp only [FetchCore.parseFetchToolInput]
    rw [getField_append_of_ne fields k "url" v h1,
        getField_append_of_ne fields k "timeoutMs" v h2,
        getField_append_of_ne fields k "maxBytes" v h3,
        getField_append_of_ne fields k "maxRedirects" v h4]
  · intro fields k v hk
    simp only [List.mem_cons, List.not_mem_nil, or_false, not_or] at hk
    obtain ⟨h1, h2, h3, h4, h5⟩ := hk
    simp only [ExecCore.parseExecToolInput]
    rw [getField_append_of_ne fields k "command" v h1,
        getField_append_of_ne fields k "args" v h2,
        getField_append_of_ne fields k "stdin" v h3,
        getField_append_of_ne fields k "timeoutMs" v h4,
        getField_append_of_ne fields k "maxOutputBytes" v h5]

theorem claim_C2_amended_witness :
    FetchCore.parseFetchToolInput
        (.jobj ([("url", .jstr "http://example.com")] ++ [("extra", .jint 1)])) =
      FetchCore.parseFetchToolInput (.jobj [("url", .jstr "http://example.com")]) :=
  claim_C2_amended.1 [("url", .jstr "http://example.com")] "extra" (.jint 1) (by decide)

/-- C3 counterexample: a `timeoutMs` above the system maximum is
rejected with `INVALID_INPUT`, not clamped down to the maximum — the
parse produces no command at all, so no engine run with a clamped cap
exists. -/
theorem claim_C3_counterexample :
    ExecCore.parseExecToolInput (.jobj [("command", .jstr "git"), ("timeoutMs", .jint 120001)]) =
      .error ⟨"INVALID_INPUT", "timeoutMs must be between 1 and 120000"⟩ ∧
    FetchCore.parseFetchToolInput
        (.jobj [("url", .jstr "http://example.com"), ("timeoutMs", .jint 30001)]) =
      .error ⟨"INVALID_INPUT", "timeoutMs must be between 1 and 30000"⟩ :=
  ⟨rfl, rfl⟩

/-- C3 (amended): caller-supplied cap values exceeding the system
maximum are rejected with `INVALID_INPUT` rather than clamped — the
shared bounded-int checker errors on every out-of-range value in both
engines, and at the parser level every exceeding value of each capped
field (exec `timeoutMs`/`maxOutputBytes`, fetch
`timeoutMs`/`maxBytes`/`maxRedirects`) is rejected; consequently every
successfully parsed command carries caps within the hard system bounds
— exec timeout ≤ 120000 ms, output ≤ 1000000 bytes; fetch timeout ≤
30000 ms, body ≤ 1000000 bytes, redirects ≤ 5 — independently of caller
input. -/
theorem claim_C3_amended :
    (∀ (field : String) (min max dflt n : Int), n < min ∨ n > max →
       ExecCore.parseBoundedInt (some (.jint n)) field min max dflt =
         .error ⟨"INVALID_INPUT",
           field ++ " must be between " ++ toString min ++ " and " ++ toString max⟩) ∧
    (∀ (field : String) (min max dflt n : Int), n < min ∨ n > max →
       FetchCore.parseBoundedInt (some (.jint n)) field min max dflt =
         .error ⟨"INVALID_INPUT",
           field ++ " must be between " ++ toString min ++ " and " ++ toString max⟩) ∧
    (∀ n : Int, n > 120000 →
       ExecCore.parseExecToolInput (.jobj [("command", .jstr "git"), ("timeoutMs", .jint n)]) =
         .error ⟨"INVALID_INPUT", "timeoutMs must be between 1 and 120000"⟩) ∧
    (∀ n : Int, n > 1000000 →
       ExecCore.parseExecToolInput
           (.jobj [("command", .jstr "git"), ("maxOutputBytes", .jint n)]) =
         .error ⟨"INVALID_INPUT", "maxOutputBytes must be between 1024 and 1000000"⟩) ∧
    (∀ n : Int, n > 30000 →
       FetchCore.parseFetchToolInput
           (.jobj [("url", .jstr "http://example.com"), ("timeoutMs", .jint n)]) =
         .error ⟨"INVALID_INPUT", "timeoutMs must be between 1 and 30000"⟩) ∧
    (∀ n : Int, n > 1000000 →
       FetchCore.parseFetchToolInput
           (.jobj [("url", .jstr "http://example.com"), ("maxBytes", .jint n)]) =
         .error ⟨"INVALID_INPUT", "maxBytes must be between 1024 and 1000000"⟩) ∧
    (∀ n : Int, n > 5 →
       FetchCore.parseFetchToolInput
           (.jobj [("url", .jstr "http://example.com"), ("maxRedirects", .jint n)]) =
         .error ⟨"INVALID_INPUT", "maxRedirects must be between 0 and 5"⟩) ∧
    (∀ raw input, ExecCore.parseExecToolInput raw = .ok input →
       1 ≤ input.timeoutMs ∧ input.timeoutMs ≤ 120000 ∧
       1024 ≤ input.maxOutputBytes ∧ input.maxOutputBytes ≤ 1000000) ∧
    (∀ raw input, FetchCore.parseFetchToolInput raw = .ok input →
       1 ≤ input.timeoutMs ∧ input.timeoutMs ≤ 30000 ∧
       1024 ≤ input.maxBytes ∧ input.maxBytes ≤ 1000000 ∧
       0 ≤ input.maxRedirects ∧ input.maxRedirects ≤ 5) := by
  have hexec : ∀ (field : String) (min max dflt n : Int), n < min ∨ n > max →
      ExecCore.parseBoundedInt (some (.jint n)) field min max dflt =
        .error ⟨"INVALID_INPUT",
          field ++ " must be between " ++ toString min ++ " and " ++ toString max⟩ := by
    intro field min max dflt n h
    have hred : ExecCore.parseBoundedInt (some (.jint n)) field min max dflt =
        if n < min ∨ n > max then
          .error ⟨"INVALID_INPUT",
            field ++ " must be between " ++ toString min ++ " and " ++ toString max⟩
        else .ok n := rfl
    rw [hred, if_pos h]
  have hfetch : ∀ (field : String) (min max dflt n : Int), n < min ∨ n > max →
      FetchCore.parseBoundedInt (some (.jint n)) field min max dflt =
        .error ⟨"INVALID_INPUT",
          field ++ " must be between " ++ toString min ++ " and " ++ toString max⟩ := by
    intro field min max dflt n h
    have hred : FetchCore.parseBoundedInt (some (.jint n)) field min max dflt =
        if n < min ∨ n > max then
          .error ⟨"INVALID_INPUT",
            field ++ " must be between " ++ toString min ++ " and " ++ toString max⟩
        else .ok n := rfl
    rw [hred, if_pos h]
  refine ⟨hexec, hfetch, ?_, ?_, ?_, ?_, ?_, ?_, ?_⟩
  · intro n hn
    have key : ExecCore.parseExecToolInput
        (.jobj [("command", .jstr "git"), ("timeoutMs", .jint n)]) =
        ExecCore.parseBoundedInt (some (.jint n)) "timeoutMs" 1 120000 60000 >>=
          fun t => Except.ok { command := "git", args := [], stdin := none,
                               timeoutMs := t, maxOutputBytes := 200000 } := rfl
    rw [key, hexec "timeoutMs" 1 120000 60000 n (Or.inr hn)]
    rfl
  · intro n hn
    have key : ExecCore.parseExecToolInput
        (.jobj [("command", .jstr "git"), ("maxOutputBytes", .jint n)]) =
        ExecCore.parseBoundedInt (some (.jint n)) "maxOutputBytes" 1024 1000000 200000 >>=
          fun m => Except.ok { command := "git", args := [], stdin := none,
                               timeoutMs := 60000, maxOutputBytes := m } := rfl
    rw [key, hexec "maxOutputBytes" 1024 1000000 200000 n (Or.inr hn)]
    rfl
  · intro n hn
    have key : FetchCore.parseFetchToolInput
        (.jobj [("url", .jstr "http://example.com"), ("timeoutMs", .jint n)]) =
        FetchCore.parseBoundedInt (some (.jint n)) "timeoutMs" 1 30000 15000 >>=
          fun t => Except.ok { url := "http://example.com", timeoutMs := t,
                               maxBytes := 500000, maxRedirects := 3 } := rfl
    rw [key, hfetch "timeoutMs" 1 30000 15000 n (Or.inr hn)]
    rfl
  · intro n hn
    have key : FetchCore.parseFetchToolInput
        (.jobj [("url", .jstr "http://example.com"), ("maxBytes", .jint n)]) =
        FetchCore.parseBoundedInt (some (.jint n)) "maxBytes" 1024 1000000 500000 >>=
          fun m => Except.ok { url := "http://example.com", timeoutMs := 15000,
                               maxBytes := m, maxRedirects := 3 } := rfl
    rw [key, hfetch "maxBytes" 1024 1000000 500000 n (Or.inr hn)]
    rfl
  · intro n hn
    have key : FetchCore.parseFetchToolInput
        (.jobj [("url", .jstr "http://example.com"), ("maxRedirects", .jint n)]) =
        FetchCore.parseBoundedInt (some (.jint n)) "maxRedirects" 0 5 3 >>=
          fun r => Except.ok { url := "http://example.com", timeoutMs := 15000,
                               maxBytes := 500000, maxRedirects := r } := rfl
    rw [key, hfetch "maxRedirects" 0 5 3 n (Or.inr hn)]
    rfl
  · intro raw input h
    cases raw <;> simp only [ExecCore.parseExecToolInput] at h <;> try cases h
    case jobj fields =>
      split at h
      · split at h
        · rw [except_bind_ok] at h; obtain ⟨y, hy, h⟩ := h
          rw [except_bind_ok] at h; obtain ⟨args, hargs, h⟩ := h
          rw [except_bind_ok] at h; obtain ⟨u, hval, h⟩ := h
          rw [except_bind_ok] at h; obtain ⟨tm, htm, h⟩ := h
          rw [except_bind_ok] at h; obtain ⟨mob, hmob, h⟩ := h
          have hb1 := ExecCore.exec_parseBoundedInt_ok_bounds (by decide) (by decide) htm
          have hb2 := ExecCore.exec_parseBoundedInt_ok_bounds (by decide) (by decide) hmob
          split at h
          · rw [except_bind_ok] at h; obtain ⟨st, hst, h⟩ := h
            simp only [pure, Except.pure, Except.ok.injEq] at h
            subst h
            exact ⟨hb1.1, hb1.2, hb2.1, hb2.2⟩
          · split at h
            · exact absurd h except_err_bind
            · rw [except_bind_ok] at h; obtain ⟨st, hst, h⟩ := h
              simp only [pure, Except.pure, Except.ok.injEq] at h
              subst h
              exact ⟨hb1.1, hb1.2, hb2.1, hb2.2⟩
          · exact absurd h except_err_bind
        · exact absurd h except_err_bind
      · exact absurd h except_err_bind
  · intro raw input h
    cases raw <;> simp only [FetchCore.parseFetchToolInput] at h <;> try cases h
    case jobj fields =>
      split at h
      · split at h
        · exact absurd h except_err_bind
        · rw [except_bind_ok] at h; obtain ⟨y, hy, h⟩ := h
          rw [except_bind_ok] at h; obtain ⟨tm, htm, h⟩ := h
          rw [except_bind_ok] at h; obtain ⟨mb, hmb, h⟩ := h
          rw [except_bind_ok] at h; obtain ⟨mr, hmr, h⟩ := h
          have hb1 := FetchCore.fetch_parseBoundedInt_ok_bounds (by decide) (by decide) htm
          have hb2 := FetchCore.fetch_parseBoundedInt_ok_bounds (by decide) (by decide) hmb
          have hb3 := FetchCore.fetch_parseBoundedInt_ok_bounds (by decide) (by decide) hmr
          simp only [pure, Except.pure, Except.ok.injEq] at h
          subst h
          exact ⟨hb1.1, hb1.2, hb2.1, hb2.2, hb3.1, hb3.2⟩
      · exact absurd h except_err_bind

theorem claim_C3_amended_witness :
    ExecCore.parseBoundedInt (some (.jint 200)) "x" 1 100 50 =
      .error ⟨"INVALID_INPUT", "x must be between 1 and 100"⟩ ∧
    FetchCore.parseBoundedInt (some (.jint 200)) "x" 1 100 50 =
      .error ⟨"INVALID_INPUT", "x must be between 1 and 100"⟩ ∧
    ExecCore.parseExecToolInput (.jobj [("command", .jstr "git"), ("timeoutMs", .jint 120001)]) =
      .error ⟨"INVALID_INPUT", "timeoutMs must be between 1 and 120000"⟩ ∧
    ExecCore.parseExecToolInput
        (.jobj [("command", .jstr "git"), ("maxOutputBytes", .jint 1000001)]) =
      .error ⟨"INVALID_INPUT", "maxOutputBytes must be between 1024 and 1000000"⟩ ∧
    FetchCore.parseFetchToolInput
        (.jobj [("url", .jstr "http://example.com"), ("timeoutMs", .jint 30001)]) =
      .error ⟨"INVALID_INPUT", "timeoutMs must be between 1 and 30000"⟩ ∧
    FetchCore.parseFetchToolInput
        (.jobj [("url", .jstr "http://example.com"), ("maxBytes", .jint 1000001)]) =
      .error ⟨"INVALID_INPUT", "maxBytes must be between 1024 and 1000000"⟩ ∧
    FetchCore.parseFetchToolInput
        (.jobj [("url", .jstr "http://example.com"), ("maxRedirects", .jint 6)]) =
      .error ⟨"INVALID_INPUT", "maxRedirects must be between 0 and 5"⟩ ∧
    (1 ≤ (60000 : Int) ∧ (60000 : Int) ≤ 120000 ∧
     1024 ≤ (200000 : Int) ∧ (200000 : Int) ≤ 1000000) ∧
    (1 ≤ (15000 : Int) ∧ (15000 : Int) ≤ 30000 ∧
     1024 ≤ (500000 : Int) ∧ (500000 : Int) ≤ 1000000 ∧
     0 ≤ (3 : Int) ∧ (3 : Int) ≤ 5) :=
  ⟨claim_C3_amended.1 "x" 1 100 50 200 (Or.inr (by decide)),
   claim_C3_amended.2.1 "x" 1 100 50 200 (Or.inr (by decide)),
   claim_C3_amended.2.2.1 120001 (by decide),
   claim_C3_amended.2.2.2.1 1000001 (by decide),
   claim_C3_amended.2.2.2.2.1 30001 (by decide),
   claim_C3_amended.2.2.2.2.2.1 1000001 (by decide),
   claim_C3_amended.2.2.2.2.2.2.1 6 (by decide),
   claim_C3_amended.2.2.2.2.2.2.2.1 (.jobj [("command", .jstr "git")])
     ⟨"git", [], none, 60000, 200000⟩ rfl,
   claim_C3_amended.2.2.2.2.2.2.2.2 (.jobj [("url", .jstr "http://example.com")])
     ⟨"http://example.com", 15000, 500000, 3⟩ rfl⟩

/-- C6: any exec request whose `command` is missing, non-string, or
outside {git, npm, node} fails with `COMMAND_NOT_ALLOWED` during
parsing; and on any parse failure the handler never reaches the runner,
so no process is spawned. -/
theorem claim_C6 :
    (∀ (fields : List (String × JVal)) (env : ExecCore.ExecEnv),
       (∀ s, getField fields "command" = some (.jstr s) → s ∉ ExecCore.ALLOWED_COMMANDS) →
       ExecCore.parseExecToolInput (.jobj fields) =
         .error ⟨"COMMAND_NOT_ALLOWED", "command must be one of: git, npm, node"⟩ ∧
       (ExecCore.handleExecCall (.jobj fields) env).spawned = false) ∧
    (∀ raw (env : ExecCore.ExecEnv) e, ExecCore.parseExecToolInput raw = .error e →
       (ExecCore.handleExecCall raw env).spawned = false) := by
  constructor
  · intro fields env h
    have hp : ExecCore.parseExecToolInput (.jobj fields) =
        .error ⟨"COMMAND_NOT_ALLOWED", "command must be one of: git, npm, node"⟩ := by
      simp only [ExecCore.parseExecToolInput]
      cases hc : getField fields "command" with
      | none => rfl
      | some jv =>
        cases jv with
        | jstr s =>
          have hs := h s hc
          exact (if_neg hs).trans rfl
        | jnull => rfl
        | jbool b => rfl
        | jint n => rfl
        | jnum => rfl
        | jarr l => rfl
        | jobj o => rfl
    refine ⟨hp, ?_⟩
    unfold ExecCore.handleExecCall
    rw [hp]
  · intro raw env e hp
    unfold ExecCore.handleExecCall
    rw [hp]

theorem claim_C6_witness :
    ExecCore.parseExecToolInput (.jobj [("command", JVal.jstr "bash")]) =
      .error ⟨"COMMAND_NOT_ALLOWED", "command must be one of: git, npm, node"⟩ ∧
    (ExecCore.handleExecCall (.jobj [("command", JVal.jstr "bash")])
      ⟨false, false, false, false, false, [], [], some 0, none⟩).spawned = false :=
  claim_C6.1 [("command", JVal.jstr "bash")]
    ⟨false, false, false, false, false, [], [], some 0, none⟩
    (by
      intro s hs
      rw [show getField [("command", JVal.jstr "bash")] "command" =
            some (JVal.jstr "bash") from rfl] at hs
      cases hs
      decide)

/-- `validateGitArgs` succeeds only when no argument matches a denied
pattern. -/
theorem validateGitArgs_ok (args : List String)
    (h : ExecCore.validateGitArgs args = .ok ()) :
    ∀ a ∈ args, ¬gitDeniedArg a := by
  induction args with
  | nil => intro a ha; cases ha
  | cons x rest ih =>
    intro a ha
    unfold ExecCore.validateGitArgs at h
    split at h
    · cases h
    · split at h
      · cases h
      · split at h
        · cases h
        · rcases List.mem_cons.mp ha with rfl | hmem
          · next h1 h2 h3 =>
            intro hd
            rcases hd with h' | h' | h' | h' | h' | h'
            · exact h1 (Or.inl h')
            · exact h1 (Or.inr h')
            · exact h2 (Or.inl h')
            · exact h2 (Or.inr h')
            · exact h3 (Or.inl h')
            · exact h3 (Or.inr h')
          · exact ih h a hmem

/-- Every failure of `validateGitArgs` carries `DISALLOWED_ARGUMENT`. -/
theorem validateGitArgs_err_code (args : List String) (e : ToolError)
    (h : ExecCore.validateGitArgs args = .error e) : e.code = "DISALLOWED_ARGUMENT" := by
  induction args with
  | nil => cases h
  | cons x rest ih =>
    unfold ExecCore.validateGitArgs at h
    split at h
    · cases h; rfl
    · split at h
      · cases h; rfl
      · split at h
        · cases h; rfl
        · exact ih h

/-- `validateNpmArgs` succeeds only when no single argument matches a
denied pattern and no `--location global` two-token sequence occurs. -/
theorem validateNpmArgs_ok (args : List String)
    (h : ExecCore.validateNpmArgs args = .ok ()) :
    (∀ a ∈ args, ¬npmDeniedArg a) ∧
    (∀ i, ¬(args[i]? = some "--location" ∧ args[i + 1]? = some "global")) := by
  induction args with
  | nil =>
    refine ⟨fun a ha => (by cases ha), fun i => ?_⟩
    rintro ⟨h1, -⟩
    simp at h1
  | cons x rest ih =>
    unfold ExecCore.validateNpmArgs at h
    split at h
    · cases h
    · split at h
      · cases h
      · split at h
        · cases h
        · next h1 h2 h3 =>
          obtain ⟨ihm, ihs⟩ := ih h
          constructor
          · intro a ha
            rcases List.mem_cons.mp ha with rfl | hmem
            · intro hd
              rcases hd with h' | h' | h' | h' | h'
              · exact h1 (Or.inl h')
              · exact h1 (Or.inr h')
              · exact h2 (Or.inr (Or.inl h'))
              · exact h2 (Or.inl h')
              · exact h2 (Or.inr (Or.inr (by rw [h']; decide)))
            · exact ihm a hmem
          · intro i
            cases i with
            | zero =>
              rintro ⟨ha, hb⟩
              simp only [List.getElem?_cons_zero, Option.some.injEq] at ha
              simp only [List.getElem?_cons_succ] at hb
              exact h3 ⟨ha.symm ▸ rfl, by
                cases rest with
                | nil => simp at hb
                | cons y t =>
                  simp only [List.getElem?_cons_zero, Option.some.injEq] at hb
                  simp [List.head?, hb]⟩
            | succ j =>
              rintro ⟨ha, hb⟩
              simp only [List.getElem?_cons_succ] at ha hb
              exact ihs j ⟨ha, hb⟩

/-- Every failure of `validateNpmArgs` carries `DISALLOWED_ARGUMENT`. -/
theorem validateNpmArgs_err_code (args : List String) (e : ToolError)
    (h : ExecCore.validateNpmArgs args = .error e) : e.code = "DISALLOWED_ARGUMENT" := by
  induction args with
  | nil => cases h
  | cons x rest ih =>
    unfold ExecCore.validateNpmArgs at h
    split at h
    · cases h; rfl
    · split at h
      · cases h; rfl
      · split at h
        · cases h; rfl
        · exact ih h

/-- C7: the Command Policy Engine fails with `DISALLOWED_ARGUMENT`
whenever, for `git`, any argument matches `-C`, `-C<path>`, `--git-dir`,
`--git-dir=...`, `--work-tree`, `--work-tree=...`, and, for `npm`, any
argument matches `--prefix`, `--prefix=...`, `-g`, `--global`,
`--location=global`, or the two-token sequence `--location` `global`. -/
theorem claim_C7 :
    (∀ args : List String, (∃ a ∈ args, gitDeniedArg a) →
       ∃ e, ExecCore.validateDisallowedCwdArgs "git" args = .error e ∧
         e.code = "DISALLOWED_ARGUMENT") ∧
    (∀ args : List String,
       ((∃ a ∈ args, npmDeniedArg a) ∨
        (∃ i, args[i]? = some "--location" ∧ args[i + 1]? = some "global")) →
       ∃ e, ExecCore.validateDisallowedCwdArgs "npm" args = .error e ∧
         e.code = "DISALLOWED_ARGUMENT") := by
  constructor
  · intro args h
    have hg : ExecCore.validateDisallowedCwdArgs "git" args =
        ExecCore.validateGitArgs args := rfl
    cases hv : ExecCore.validateGitArgs args with
    | ok u =>
      obtain ⟨a, ha, hd⟩ := h
      cases u
      exact absurd hd (validateGitArgs_ok args hv a ha)
    | error e =>
      exact ⟨e, hg.trans hv, validateGitArgs_err_code args e hv⟩
  · intro args h
    have hg : ExecCore.validateDisallowedCwdArgs "npm" args =
        ExecCore.validateNpmArgs args := rfl
    cases hv : ExecCore.validateNpmArgs args with
    | ok u =>
      cases u
      obtain ⟨hno, hnoseq⟩ := validateNpmArgs_ok args hv
      rcases h with ⟨a, ha, hd⟩ | ⟨i, hi⟩
      · exact absurd hd (hno a ha)
      · exact absurd hi (hnoseq i)
    | error e =>
      exact ⟨e, hg.trans hv, validateNpmArgs_err_code args e hv⟩

theorem claim_C7_witness :
    (∃ e, ExecCore.validateDisallowedCwdArgs "git" ["-C", "/"] = .error e ∧
       e.code = "DISALLOWED_ARGUMENT") ∧
    (∃ e, ExecCore.validateDisallowedCwdArgs "npm" ["--location", "global"] = .error e ∧
       e.code = "DISALLOWED_ARGUMENT") :=
  ⟨claim_C7.1 ["-C", "/"] ⟨"-C", by decide, Or.inl rfl⟩,
   claim_C7.2 ["--location", "global"] (Or.inr ⟨0, by decide, by decide⟩)⟩

/-- C9 counterexample: when the cancellation signal fires *during*
execution (not before), the process group is killed, but the call fails
with `NON_ZERO_EXIT` (the killed child closes with a `null` exit code),
not with `ABORTED` as claimed. -/
theorem claim_C9_counterexample :
    (ExecCore.runExecTool ⟨"git", ["status"], none, 60000, 200000⟩
        ⟨false, false, true, false, false, [], [], none, some "SIGKILL"⟩).result =
      .error ⟨"NON_ZERO_EXIT", "Process exited with non-zero status"⟩ ∧
    (ExecCore.runExecTool ⟨"git", ["status"], none, 60000, 200000⟩
        ⟨false, false, true, false, false, [], [], none, some "SIGKILL"⟩).killedGroup = true :=
  ⟨rfl, rfl⟩

/-- C9 (amended): if the caller's signal has already fired when
execution starts, the process group is killed and the call fails with
`ABORTED`; if it fires during execution the process group is still
killed, but the failure kind comes from the ordinary exit handling — in
particular `NON_ZERO_EXIT` when the killed child closes with a `null`
exit code and the timeout did not fire — never `ABORTED`. -/
theorem claim_C9_amended (input : ExecCore.ExecInput) (env : ExecCore.ExecEnv) :
    (env.spawnFails = false → env.abortedAtStart = true →
       (ExecCore.runExecTool input env).result = .error ⟨"ABORTED", "Request aborted"⟩ ∧
       (ExecCore.runExecTool input env).killedGroup = true) ∧
    (env.spawnFails = false → env.abortedAtStart = false → env.abortsDuring = true →
       (ExecCore.runExecTool input env).killedGroup = true) ∧
    (env.spawnFails = false → env.abortedAtStart = false → env.abortsDuring = true →
       env.timeoutFires = false → env.childErrors = false → env.closeCode = none →
       ∃ e, (ExecCore.runExecTool input env).result = .error e ∧ e.code = "NON_ZERO_EXIT") := by
  refine ⟨?_, ?_, ?_⟩
  · intro h1 h2
    constructor <;> simp [ExecCore.runExecTool, h1, h2]
  · intro h1 h2 h3
    simp only [ExecCore.runExecTool, h1, h2, h3]
    simp only [Bool.false_eq_true, if_false, Bool.or_true]
    split
    · rfl
    · split
      · rfl
      · split
        · rfl
        · rfl
  · intro h1 h2 h3 h4 h5 h6
    refine ⟨⟨"NON_ZERO_EXIT", "Process exited with non-zero status"⟩, ?_, rfl⟩
    simp [ExecCore.runExecTool, h1, h2, h4, h5, h6]

theorem claim_C9_amended_witness :
    ((ExecCore.runExecTool ⟨"git", [], none, 60000, 200000⟩
        ⟨false, true, false, false, false, [], [], none, none⟩).result =
       .error ⟨"ABORTED", "Request aborted"⟩ ∧
     (ExecCore.runExecTool ⟨"git", [], none, 60000, 200000⟩
        ⟨false, true, false, false, false, [], [], none, none⟩).killedGroup = true) ∧
    (ExecCore.runExecTool ⟨"git", [], none, 60000, 200000⟩
        ⟨false, false, true, false, false, [], [], none, some "SIGKILL"⟩).killedGroup = true ∧
    (∃ e, (ExecCore.runExecTool ⟨"git", [], none, 60000, 200000⟩
        ⟨false, false, true, false, false, [], [], none, some "SIGKILL"⟩).result = .error e ∧
       e.code = "NON_ZERO_EXIT") :=
  ⟨(claim_C9_amended ⟨"git", [], none, 60000, 200000⟩
      ⟨false, true, false, false, false, [], [], none, none⟩).1 rfl rfl,
   (claim_C9_amended ⟨"git", [], none, 60000, 200000⟩
      ⟨false, false, true, false, false, [], [], none, some "SIGKILL"⟩).2.1 rfl rfl rfl,
   (claim_C9_amended ⟨"git", [], none, 60000, 200000⟩
      ⟨false, false, true, false, false, [], [], none, some "SIGKILL"⟩).2.2 rfl rfl rfl rfl rfl rfl⟩

/-- If every resolved address is classifiable and any one of them is
private, the DNS-results loop fails with `SSRF_BLOCKED` — regardless of
where in the list the private address sits. -/
theorem checkResolvedAddrs_blocked (addrs : List String)
    (hwf : ∀ a ∈ addrs, ∃ b, FetchCore.isPrivateIp a = .ok b)
    (hex : ∃ a ∈ addrs, FetchCore.isPrivateIp a = .ok true) :
    ∃ e, FetchCore.checkResolvedAddrs addrs = .error e ∧ e.code = "SSRF_BLOCKED" := by
  induction addrs with
  | nil => obtain ⟨a, ha, -⟩ := hex; cases ha
  | cons x rest ih =>
    obtain ⟨bx, hbx⟩ := hwf x (List.mem_cons_self x rest)
    cases bx with
    | true =>
      refine ⟨⟨"SSRF_BLOCKED", "Blocked resolved IP address"⟩, ?_, rfl⟩
      simp only [FetchCore.checkResolvedAddrs]
      rw [hbx]
      rfl
    | false =>
      have step : FetchCore.checkResolvedAddrs (x :: rest) =
          FetchCore.checkResolvedAddrs rest := by
        simp only [FetchCore.checkResolvedAddrs]
        rw [hbx]
        rfl
      rw [step]
      refine ih (fun a ha => hwf a (List.mem_cons_of_mem x ha)) ?_
      obtain ⟨a, ha, hpa⟩ := hex
      rcases List.mem_cons.mp ha with rfl | hmem
      · rw [hbx] at hpa; cases hpa
      · exact ⟨a, hmem, hpa⟩

/-- If every resolved address is public, the DNS-results loop passes. -/
theorem checkResolvedAddrs_ok (addrs : List String)
    (h : ∀ a ∈ addrs, FetchCore.isPrivateIp a = .ok false) :
    FetchCore.checkResolvedAddrs addrs = .ok () := by
  induction addrs with
  | nil => rfl
  | cons x rest ih =>
    have hx := h x (List.mem_cons_self x rest)
    have step : FetchCore.checkResolvedAddrs (x :: rest) =
        FetchCore.checkResolvedAddrs rest := by
      simp only [FetchCore.checkResolvedAddrs]
      rw [hx]
      rfl
    rw [step]
    exact ih (fun a ha => h a (List.mem_cons_of_mem x ha))

/-- C5: for a well-formed URL whose hostname is not a literal IP, the
policy engine consults DNS: a resolution failure yields `DNS_FAILED`
(never allowed-by-default); with a resolved address list it blocks with
`SSRF_BLOCKED` as soon as ANY address (not merely the first) is
private, and passes only when every address is public. -/
theorem claim_C5 (url : FetchCore.JsUrl)
    (hproto : url.protocol = "http:" ∨ url.protocol = "https:")
    (huser : url.username = "") (hpass : url.password = "")
    (hhost : url.hostname ≠ "")
    (hblocked : FetchCore.isBlockedHostnameL url.hostname.toList = false)
    (hip : FetchCore.netIsIP url.hostname = 0) :
    (∀ msg, FetchCore.assertUrlAllowed (some url) (.error msg) =
       .error ⟨"DNS_FAILED", "DNS lookup failed"⟩) ∧
    (∀ addrs, (∀ a ∈ addrs, ∃ b, FetchCore.isPrivateIp a = .ok b) →
       (∃ a ∈ addrs, FetchCore.isPrivateIp a = .ok true) →
       ∃ e, FetchCore.assertUrlAllowed (some url) (.ok addrs) = .error e ∧
         e.code = "SSRF_BLOCKED") ∧
    (∀ addrs, (∀ a ∈ addrs, FetchCore.isPrivateIp a = .ok false) →
       FetchCore.assertUrlAllowed (some url) (.ok addrs) = .ok url) := by
  have hc1 : ¬(url.protocol ≠ "http:" ∧ url.protocol ≠ "https:") := by
    rcases hproto with h | h <;> simp [h]
  have hc2 : ¬(url.username ≠ "" ∨ url.password ≠ "") := by simp [huser, hpass]
  have hc4 : ¬(FetchCore.isBlockedHostnameL url.hostname.toList = true) := by
    intro h
    rw [h] at hblocked
    exact absurd hblocked (by decide)
  have hc5 : ¬(FetchCore.netIsIP url.hostname ≠ 0) := by simp [hip]
  have hred : ∀ lk, FetchCore.assertUrlAllowed (some url) lk =
      (match lk with
       | .error _ => .error ⟨"DNS_FAILED", "DNS lookup failed"⟩
       | .ok addrs =>
         match FetchCore.checkResolvedAddrs addrs with
         | .error e => .error e
         | .ok () => .ok url) := by
    intro lk
    simp only [FetchCore.assertUrlAllowed]
    rw [if_neg hc1, if_neg hc2, if_neg hhost, if_neg hc4, if_neg hc5]
  refine ⟨fun msg => by simp only [hred], ?_, ?_⟩
  · intro addrs hwf hex
    obtain ⟨e, he, hcode⟩ := checkResolvedAddrs_blocked addrs hwf hex
    refine ⟨e, ?_, hcode⟩
    simp only [hred, he]
  · intro addrs hall
    simp only [hred, checkResolvedAddrs_ok addrs hall]

theorem claim_C5_witness :
    FetchCore.assertUrlAllowed (some ⟨"http://example.com/", "http:", "", "", "example.com"⟩)
        (.error "EAI_AGAIN") =
      .error ⟨"DNS_FAILED", "DNS lookup failed"⟩ ∧
    (∃ e, FetchCore.assertUrlAllowed
        (some ⟨"http://example.com/", "http:", "", "", "example.com"⟩)
        (.ok ["93.184.216.34", "10.0.0.1"]) = .error e ∧ e.code = "SSRF_BLOCKED") ∧
    FetchCore.assertUrlAllowed (some ⟨"http://example.com/", "http:", "", "", "example.com"⟩)
        (.ok ["93.184.216.34"]) =
      .ok ⟨"http://example.com/", "http:", "", "", "example.com"⟩ := by
  have h := claim_C5 ⟨"http://example.com/", "http:", "", "", "example.com"⟩
    (Or.inl rfl) rfl rfl (by decide) (by decide) (by decide)
  refine ⟨h.1 "EAI_AGAIN", h.2.1 ["93.184.216.34", "10.0.0.1"] ?_ ?_, h.2.2 ["93.184.216.34"] ?_⟩
  · intro a ha
    rcases List.mem_cons.mp ha with rfl | ha2
    · exact ⟨false, rfl⟩
    · rcases List.mem_cons.mp ha2 with rfl | ha3
      · exact ⟨true, rfl⟩
      · cases ha3
  · exact ⟨"10.0.0.1", by decide, rfl⟩
  · intro a ha
    rcases List.mem_cons.mp ha with rfl | ha2
    · rfl
    · cases ha2


/-- Once set, the collector's truncation flag is never cleared. -/
theorem collector_truncated_mono (maxB : Nat) (chunks : List (List Nat))
    (st : ExecCore.CollectorState) (h : st.truncated = true) :
    (chunks.foldl (ExecCore.collectorStep maxB) st).truncated = true := by
  induction chunks generalizing st with
  | nil => exact h
  | cons c rest ih =>
    rw [List.foldl_cons]
    apply ih
    unfold ExecCore.collectorStep
    split
    · rfl
    · split
      · rfl
      · exact h

/-- Collector invariant: the retained bytes are exactly the input
prefix cut at the cap, and the byte counter tracks it. -/
theorem collector_kept_bytes (maxB : Nat) (chunks : List (List Nat))
    (st : ExecCore.CollectorState) (hlen : st.kept.length = st.bytes) (hle : st.bytes ≤ maxB) :
    (chunks.foldl (ExecCore.collectorStep maxB) st).kept =
      st.kept ++ chunks.flatten.take (maxB - st.bytes) ∧
    (chunks.foldl (ExecCore.collectorStep maxB) st).bytes =
      st.bytes + min (maxB - st.bytes) chunks.flatten.length := by
  induction chunks generalizing st with
  | nil => simp
  | cons c rest ih =>
    rw [List.foldl_cons]
    by_cases h1 : st.bytes ≥ maxB
    · have hz : maxB - st.bytes = 0 := by omega
      have hstep : ExecCore.collectorStep maxB st c = { st with truncated := true } := by
        unfold ExecCore.collectorStep
        rw [if_pos h1]
      rw [hstep]
      obtain ⟨k, b⟩ := ih { st with truncated := true } hlen hle
      refine ⟨?_, ?_⟩
      · rw [k]; simp [hz]
      · rw [b]; simp [hz]
    · push_neg at h1
      by_cases h2 : c.length > maxB - st.bytes
      · have hstep : ExecCore.collectorStep maxB st c =
            { kept := st.kept ++ c.take (maxB - st.bytes), bytes := maxB, truncated := true } := by
          unfold ExecCore.collectorStep
          rw [if_neg (by omega), if_pos h2]
        rw [hstep]
        obtain ⟨k, b⟩ := ih
          { kept := st.kept ++ c.take (maxB - st.bytes), bytes := maxB, truncated := true }
          (by simp [List.length_take]; omega) (le_refl maxB)
        refine ⟨?_, ?_⟩
        · rw [k]
          simp only [Nat.sub_self, List.take_zero, List.append_nil, List.flatten_cons]
          rw [List.take_append_eq_append_take]
          have hz2 : maxB - st.bytes - c.length = 0 := by omega
          rw [hz2]
          simp
        · rw [b]
          simp only [Nat.sub_self, List.flatten_cons, List.length_append]
          omega
      · push_neg at h2
        have hstep : ExecCore.collectorStep maxB st c =
            { st with kept := st.kept ++ c, bytes := st.bytes + c.length } := by
          unfold ExecCore.collectorStep
          rw [if_neg (by omega), if_neg (by omega)]
        rw [hstep]
        obtain ⟨k, b⟩ := ih { st with kept := st.kept ++ c, bytes := st.bytes + c.length }
          (by simp [hlen]) (by show st.bytes + c.length ≤ maxB; omega)
        refine ⟨?_, ?_⟩
        · rw [k]
          simp only [List.flatten_cons, List.append_assoc]
          rw [List.take_append_eq_append_take]
          have hcl : c.take (maxB - st.bytes) = c := List.take_of_length_le (by omega)
          have hz3 : maxB - st.bytes - c.length = maxB - (st.bytes + c.length) := by omega
          rw [hcl, hz3]
        · rw [b]
          simp only [List.flatten_cons, List.length_append]
          omega

/-- For non-empty chunks the collector's truncated flag is equivalent
to the input exceeding the cap. -/
theorem collector_trunc_iff (maxB : Nat) (chunks : List (List Nat))
    (st : ExecCore.CollectorState) (hne : ∀ c ∈ chunks, c ≠ [])
    (hst : st.truncated = false) (hle : st.bytes ≤ maxB) :
    ((chunks.foldl (ExecCore.collectorStep maxB) st).truncated = true ↔
      maxB < st.bytes + chunks.flatten.length) := by
  induction chunks generalizing st with
  | nil =>
    simp only [List.foldl_nil, List.flatten_nil, List.length_nil, Nat.add_zero, hst]
    constructor
    · intro h; cases h
    · omega
  | cons c rest ih =>
    have hc1 : c.length ≥ 1 := by
      have := hne c (List.mem_cons_self c rest)
      cases c with
      | nil => exact absurd rfl this
      | cons y t => simp
    rw [List.foldl_cons]
    by_cases h1 : st.bytes ≥ maxB
    · have hstep : ExecCore.collectorStep maxB st c = { st with truncated := true } := by
        unfold ExecCore.collectorStep
        rw [if_pos h1]
      rw [hstep]
      have ht := collector_truncated_mono maxB rest { st with truncated := true } rfl
      simp only [ht, List.flatten_cons, List.length_append, true_iff]
      omega
    · push_neg at h1
      by_cases h2 : c.length > maxB - st.bytes
      · have hstep : ExecCore.collectorStep maxB st c =
            { kept := st.kept ++ c.take (maxB - st.bytes), bytes := maxB, truncated := true } := by
          unfold ExecCore.collectorStep
          rw [if_neg (by omega), if_pos h2]
        rw [hstep]
        have ht := collector_truncated_mono maxB rest
          { kept := st.kept ++ c.take (maxB - st.bytes), bytes := maxB, truncated := true } rfl
        simp only [ht, List.flatten_cons, List.length_append, true_iff]
        omega
      · push_neg at h2
        have hstep : ExecCore.collectorStep maxB st c =
            { st with kept := st.kept ++ c, bytes := st.bytes + c.length } := by
          unfold ExecCore.collectorStep
          rw [if_neg (by omega), if_neg (by omega)]
        rw [hstep]
        have := ih { st with kept := st.kept ++ c, bytes := st.bytes + c.length }
          (fun a ha => hne a (List.mem_cons_of_mem c ha)) hst
          (by show st.bytes + c.length ≤ maxB; omega)
        rw [this]
        simp only [List.flatten_cons, List.length_append]
        omega

/-- `readBodyText` invariant: retained bytes are the input prefix cut
at the cap. -/
theorem readBodyGo_spec (m : Int) (chunks : List (List Nat)) (kept : List Nat) (br : Nat)
    (hle : (br : Int) ≤ m) :
    (FetchCore.readBodyGo m chunks kept br).bodyBytes =
      kept ++ chunks.flatten.take (m - br).toNat ∧
    (FetchCore.readBodyGo m chunks kept br).bytesRead =
      br + min (m - br).toNat chunks.flatten.length := by
  induction chunks generalizing kept br with
  | nil => simp [FetchCore.readBodyGo]
  | cons c rest ih =>
    unfold FetchCore.readBodyGo
    by_cases h1 : m - (br : Int) ≤ 0
    · rw [if_pos h1]
      have hz : (m - (br : Int)).toNat = 0 := by omega
      simp [hz]
    · rw [if_neg h1]
      by_cases h2 : (c.length : Int) > m - br
      · rw [if_pos h2]
        have htn : (m - (br : Int)).toNat ≤ c.length := by omega
        refine ⟨?_, ?_⟩
        · simp only [List.flatten_cons]
          rw [List.take_append_eq_append_take]
          have hz2 : (m - (br : Int)).toNat - c.length = 0 := by omega
          rw [hz2]
          simp
        · simp only [List.flatten_cons, List.length_append]
          omega
      · rw [if_neg h2]
        push_neg at h2
        obtain ⟨k, b⟩ := ih (kept ++ c) (br + c.length) (by push_cast; omega)
        refine ⟨?_, ?_⟩
        · rw [k]
          simp only [List.flatten_cons, List.append_assoc]
          rw [List.take_append_eq_append_take]
          have hcl : c.take (m - (br : Int)).toNat = c := List.take_of_length_le (by omega)
          have hz3 : (m - (br : Int)).toNat - c.length = (m - ((br : Nat) + c.length : Nat) : Int).toNat := by
            push_cast
            omega
          rw [hcl, hz3]
        · rw [b]
          have hz4 : (m - ((br : Nat) + c.length : Nat) : Int).toNat = (m - (br : Int)).toNat - c.length := by
            push_cast
            omega
          simp only [List.flatten_cons, List.length_append]
          omega

/-- For non-empty chunks `readBodyText`'s truncated flag is equivalent
to the input exceeding the cap. -/
theorem readBodyGo_trunc_iff (m : Int) (chunks : List (List Nat)) (kept : List Nat) (br : Nat)
    (hne : ∀ c ∈ chunks, c ≠ []) (hle : (br : Int) ≤ m) :
    ((FetchCore.readBodyGo m chunks kept br).truncated = true ↔
      m < br + chunks.flatten.length) := by
  induction chunks generalizing kept br with
  | nil =>
    simp only [FetchCore.readBodyGo, List.flatten_nil, List.length_nil, Nat.add_zero]
    constructor
    · intro h; cases h
    · intro h; exact absurd hle (by omega)
  | cons c rest ih =>
    have hc1 : c.length ≥ 1 := by
      have := hne c (List.mem_cons_self c rest)
      cases c with
      | nil => exact absurd rfl this
      | cons y t => simp
    unfold FetchCore.readBodyGo
    by_cases h1 : m - (br : Int) ≤ 0
    · rw [if_pos h1]
      simp only [List.flatten_cons, List.length_append, true_iff]
      push_cast
      omega
    · rw [if_neg h1]
      by_cases h2 : (c.length : Int) > m - br
      · rw [if_pos h2]
        simp only [List.flatten_cons, List.length_append, true_iff]
        push_cast
        omega
      · rw [if_neg h2]
        push_neg at h2
        rw [ih (kept ++ c) (br + c.length) (fun a ha => hne a (List.mem_cons_of_mem c ha))
          (by push_cast; omega)]
        simp only [List.flatten_cons, List.length_append]
        push_cast
        omega

/-- C8 counterexample: with cap 1 and the chunk sequence `[[7], []]`,
both collectors keep every input byte (nothing beyond the cap is
dropped — total input equals the cap) yet set the truncated flag,
because a chunk arrived after the cap was exactly reached; this refutes
the claimed "truncated iff input beyond the cap was dropped". -/
theorem claim_C8_counterexample :
    (ExecCore.runCollector 1 [[7], []]).truncated = true ∧
    (ExecCore.runCollector 1 [[7], []]).kept = [7] ∧
    ([[7], []] : List (List Nat)).flatten.length = 1 ∧
    (FetchCore.readBodyText 1 [[7], []]).truncated = true ∧
    (FetchCore.readBodyText 1 [[7], []]).bodyBytes = [7] :=
  ⟨rfl, rfl, rfl, rfl, rfl⟩

/-- C8 (amended): both byte-bounded collectors keep exactly the first
`cap` bytes of the input — never more, cutting a crossing chunk at the
boundary and keeping the prefix — the recorded byte count is
`min cap total`, and the first `N ≤ cap` bytes of the output equal the
first `N` bytes of the untruncated input; the truncated flag equals
"input beyond the cap was dropped" provided every chunk is non-empty
(an empty chunk arriving once the cap is exactly reached sets the flag
with nothing dropped). -/
theorem claim_C8_amended :
    (∀ maxB (chunks : List (List Nat)),
       (ExecCore.runCollector maxB chunks).kept = chunks.flatten.take maxB ∧
       (ExecCore.runCollector maxB chunks).bytes = min maxB chunks.flatten.length) ∧
    (∀ maxB (chunks : List (List Nat)) (N : Nat), N ≤ maxB →
       (ExecCore.runCollector maxB chunks).kept.take N = chunks.flatten.take N) ∧
    (∀ maxB (chunks : List (List Nat)), (∀ c ∈ chunks, c ≠ []) →
       ((ExecCore.runCollector maxB chunks).truncated = true ↔
         maxB < chunks.flatten.length)) ∧
    (∀ (maxBytes : Int) (chunks : List (List Nat)), 0 ≤ maxBytes →
       (FetchCore.readBodyText maxBytes chunks).bodyBytes =
         chunks.flatten.take maxBytes.toNat ∧
       (FetchCore.readBodyText maxBytes chunks).bytesRead =
         min maxBytes.toNat chunks.flatten.length) ∧
    (∀ (maxBytes : Int) (chunks : List (List Nat)) (N : Nat), (N : Int) ≤ maxBytes →
       (FetchCore.readBodyText maxBytes chunks).bodyBytes.take N = chunks.flatten.take N) ∧
    (∀ (maxBytes : Int) (chunks : List (List Nat)), 0 ≤ maxBytes → (∀ c ∈ chunks, c ≠ []) →
       ((FetchCore.readBodyText maxBytes chunks).truncated = true ↔
         maxBytes < chunks.flatten.length)) := by
  have hcol : ∀ maxB (chunks : List (List Nat)),
      (ExecCore.runCollector maxB chunks).kept = chunks.flatten.take maxB ∧
      (ExecCore.runCollector maxB chunks).bytes = min maxB chunks.flatten.length := by
    intro maxB chunks
    obtain ⟨k, b⟩ := collector_kept_bytes maxB chunks ⟨[], 0, false⟩ rfl (Nat.zero_le _)
    constructor
    · rw [ExecCore.runCollector, k]; simp
    · rw [ExecCore.runCollector, b]; simp
  have hbody : ∀ (maxBytes : Int) (chunks : List (List Nat)), 0 ≤ maxBytes →
      (FetchCore.readBodyText maxBytes chunks).bodyBytes =
        chunks.flatten.take maxBytes.toNat ∧
      (FetchCore.readBodyText maxBytes chunks).bytesRead =
        min maxBytes.toNat chunks.flatten.length := by
    intro m chunks hm
    obtain ⟨k, b⟩ := readBodyGo_spec m chunks [] 0 (by exact_mod_cast hm)
    constructor
    · rw [FetchCore.readBodyText, k]; simp
    · rw [FetchCore.readBodyText, b]; simp
  refine ⟨hcol, ?_, ?_, hbody, ?_, ?_⟩
  · intro maxB chunks N hN
    rw [(hcol maxB chunks).1, List.take_take, min_eq_left hN]
  · intro maxB chunks hne
    have := collector_trunc_iff maxB chunks ⟨[], 0, false⟩ hne rfl (Nat.zero_le _)
    rw [ExecCore.runCollector]
    simpa using this
  · intro m chunks N hN
    have hm : 0 ≤ m := le_trans (by positivity) hN
    rw [(hbody m chunks hm).1, List.take_take, min_eq_left (by omega)]
  · intro m chunks hm hne
    have := readBodyGo_trunc_iff m chunks [] 0 hne (by exact_mod_cast hm)
    rw [FetchCore.readBodyText]
    simpa using this

theorem claim_C8_amended_witness :
    (ExecCore.runCollector 2 [[5, 6, 7]]).kept.take 1 = ([[5, 6, 7]] : List (List Nat)).flatten.take 1 ∧
    ((ExecCore.runCollector 2 [[5, 6, 7]]).truncated = true ↔
      2 < ([[5, 6, 7]] : List (List Nat)).flatten.length) ∧
    ((FetchCore.readBodyText 2 [[5, 6, 7]]).truncated = true ↔
      (2 : Int) < ([[5, 6, 7]] : List (List Nat)).flatten.length) :=
  ⟨claim_C8_amended.2.1 2 [[5, 6, 7]] 1 (by decide),
   claim_C8_amended.2.2.1 2 [[5, 6, 7]] (by decide),
   claim_C8_amended.2.2.2.2.2 2 [[5, 6, 7]] (by decide) (by decide)⟩

/-- The empty trace is guarded. -/
theorem guarded_nil : RequestedGuarded [] := by
  intro p u rest h
  exact absurd h.symm (List.append_ne_nil_of_right_ne_nil p (by simp))

/-- A trace consisting of a single validation is guarded. -/
theorem guarded_single_validated (s h' : String) :
    RequestedGuarded [FetchCore.FetchEv.validated s h'] := by
  intro p u rest heq
  match p with
  | [] => simp at heq
  | a :: p' =>
    simp only [List.cons_append, List.cons.injEq] at heq
    exact absurd heq.2.symm (List.append_ne_nil_of_right_ne_nil p' (by simp))

/-- Prepending one iteration's `validated`/`requested` pair to a
guarded trace that starts (if at all) with a validation preserves
guardedness. -/
theorem guarded_cons_pair (s h' : String) (tr : List FetchCore.FetchEv)
    (hg : RequestedGuarded tr)
    (hhead : ∀ x rest, tr = x :: rest → ∃ s2 h2, x = FetchCore.FetchEv.validated s2 h2) :
    RequestedGuarded
      (FetchCore.FetchEv.validated s h' :: FetchCore.FetchEv.requested h' :: tr) := by
  intro p u rest heq
  match p with
  | [] => simp at heq
  | [a] =>
    simp only [List.cons_append, List.nil_append, List.cons.injEq] at heq
    obtain ⟨ha, hu, -⟩ := heq
    injection hu with h3
    subst h3
    exact ⟨s, by simp [← ha]⟩
  | a :: b :: p' =>
    simp only [List.cons_append, List.cons.injEq] at heq
    obtain ⟨ha, hb, htr⟩ := heq
    have hp' : p' ≠ [] := by
      intro hnil
      subst hnil
      simp only [List.nil_append] at htr
      obtain ⟨s2, h2, hx⟩ := hhead _ _ htr
      cases hx
    obtain ⟨s2, hlast⟩ := hg p' u rest htr
    refine ⟨s2, ?_⟩
    rw [List.getLast?_cons_cons]
    rw [show (b :: p').getLast? = p'.getLast? from ?_]
    · exact hlast
    · cases p' with
      | nil => exact absurd rfl hp'
      | cons c t => exact List.getLast?_cons_cons

/-- Every trace of the redirect loop is guarded, and its first event
(if any) validates the iteration's current URL. -/
theorem fetchGo_guarded (env : FetchCore.FetchEnv) (input : FetchCore.FetchInput) :
    ∀ (fuel : Nat) (current : String) (redirects : List FetchCore.Redirect),
      RequestedGuarded (FetchCore.fetchGo env input fuel current redirects).1 ∧
      (∀ x rest, (FetchCore.fetchGo env input fuel current redirects).1 = x :: rest →
         ∃ href, x = FetchCore.FetchEv.validated current href) := by
  intro fuel
  induction fuel with
  | zero =>
    intro current redirects
    exact ⟨guarded_nil, fun x rest h => by simp [FetchCore.fetchGo] at h⟩
  | succ fuel ih =>
    intro current redirects
    cases hA : FetchCore.assertUrlAllowedEnv env fuel current with
    | error e =>
      refine ⟨?_, ?_⟩
      · show RequestedGuarded (FetchCore.fetchGo env input (fuel + 1) current redirects).1
        simp only [FetchCore.fetchGo, hA]
        exact guarded_nil
      · intro x rest h
        simp only [FetchCore.fetchGo, hA] at h
        cases h
    | ok url =>
      cases hab : env.abortedAt fuel with
      | true =>
        refine ⟨?_, ?_⟩
        · simp only [FetchCore.fetchGo, hA, hab, if_true]
          exact guarded_single_validated current url.href
        · intro x rest h
          simp only [FetchCore.fetchGo, hA, hab, if_true] at h
          cases h
          exact ⟨url.href, rfl⟩
      | false =>
        cases hF : env.fetchImpl fuel url.href with
        | error msg =>
          refine ⟨?_, ?_⟩
          · simp only [FetchCore.fetchGo, hA, hab, Bool.false_eq_true, if_false, hF]
            exact guarded_cons_pair current url.href [] guarded_nil (by intro x r h; cases h)
          · intro x rest h
            simp only [FetchCore.fetchGo, hA, hab, Bool.false_eq_true, if_false, hF] at h
            cases h
            exact ⟨url.href, rfl⟩
        | ok resp =>
          cases hR : FetchCore.isRedirectStatus resp.status with
          | false =>
            refine ⟨?_, ?_⟩
            · simp only [FetchCore.fetchGo, hA, hab, Bool.false_eq_true, if_false, hF, hR]
              exact guarded_cons_pair current url.href [] guarded_nil (by intro x r h; cases h)
            · intro x rest h
              simp only [FetchCore.fetchGo, hA, hab, Bool.false_eq_true, if_false, hF, hR] at h
              cases h
              exact ⟨url.href, rfl⟩
          | true =>
            cases hL : resp.locationHeader with
            | none =>
              refine ⟨?_, ?_⟩
              · simp only [FetchCore.fetchGo, hA, hab, Bool.false_eq_true, if_false, hF, hR, hL]
                exact guarded_cons_pair current url.href [] guarded_nil (by intro x r h; cases h)
              · intro x rest h
                simp only [FetchCore.fetchGo, hA, hab, Bool.false_eq_true, if_false, hF, hR,
                  hL] at h
                cases h
                exact ⟨url.href, rfl⟩
            | some loc =>
              cases hRes : env.resolveUrl loc url.href with
              | none =>
                refine ⟨?_, ?_⟩
                · simp only [FetchCore.fetchGo, hA, hab, Bool.false_eq_true, if_false, hF, hR,
                    hL, hRes]
                  exact guarded_cons_pair current url.href [] guarded_nil
                    (by intro x r h; cases h)
                · intro x rest h
                  simp only [FetchCore.fetchGo, hA, hab, Bool.false_eq_true, if_false, hF, hR,
                    hL, hRes] at h
                  cases h
                  exact ⟨url.href, rfl⟩
              | some next =>
                obtain ⟨ihg, ihh⟩ := ih next (redirects ++ [⟨resp.status, next⟩])
                refine ⟨?_, ?_⟩
                · simp only [FetchCore.fetchGo, hA, hab, Bool.false_eq_true, if_false, hF, hR,
                    hL, hRes]
                  exact guarded_cons_pair current url.href _ ihg
                    (fun x r h => by
                      obtain ⟨href, hx⟩ := ihh x r h
                      exact ⟨next, href, hx⟩)
                · intro x rest h
                  simp only [FetchCore.fetchGo, hA, hab, Bool.false_eq_true, if_false, hF, hR,
                    hL, hRes, List.cons_append] at h
                  cases h
                  exact ⟨url.href, rfl⟩

/-- C1: in every execution of `fetchWithGuards` — over every URL-parser,
DNS, transport, redirect-location and abort behaviour — a GET request is
issued to a URL only if that exact URL has just passed the Network
Policy Engine in the same loop iteration: every `requested` event in the
trace is immediately preceded by the `validated` event that produced
that URL, on every hop; and the first validation of the run is of the
request's initial URL. -/
theorem claim_C1 (env : FetchCore.FetchEnv) (input : FetchCore.FetchInput) :
    RequestedGuarded (FetchCore.fetchWithGuards env input).1 ∧
    (∀ x rest, (FetchCore.fetchWithGuards env input).1 = x :: rest →
       ∃ href, x = FetchCore.FetchEv.validated input.url href) :=
  fetchGo_guarded env input (input.maxRedirects.toNat + 1) input.url []

/-- A JS high-bit mask `(2^k - 1) <<< m` selects the top `k` bits: the
masked value is the value rounded down to a multiple of `2^m`. -/
theorem and_highMask (v k m : Nat) (hv : v < 2 ^ (k + m)) :
    v &&& ((2 ^ k - 1) <<< m) = v / 2 ^ m * 2 ^ m := by
  have hrew : v / 2 ^ m * 2 ^ m = (v >>> m) <<< m := by
    rw [Nat.shiftLeft_eq, Nat.shiftRight_eq_div_pow]
  rw [hrew]
  apply Nat.eq_of_testBit_eq
  intro i
  rw [Nat.testBit_and, Nat.testBit_shiftLeft, Nat.testBit_shiftLeft, Nat.testBit_shiftRight,
    Nat.testBit_two_pow_sub_one]
  by_cases h1 : m ≤ i
  · have hadd : m + (i - m) = i := by omega
    rw [hadd]
    by_cases h2 : i - m < k
    · simp [h1, h2, Nat.le_of_lt]
    · have hik : k + m ≤ i := by omega
      have hz : v.testBit i = false :=
        Nat.testBit_lt_two_pow
          (lt_of_lt_of_le hv (Nat.pow_le_pow_right (by norm_num) hik))
      simp [h1, h2, hz]
  · simp [h1]

/-- The code's IPv4 mask-comparison table agrees with the spec's CIDR
blocks read as value intervals. -/
theorem ipv4Table_iff (v : Nat) (hv : v < 4294967296) :
    (FetchCore.ipv4PrivateTable v = true) ↔ specPrivateV4 v := by
  have e8 : v &&& FetchCore.jsMask32 8 = v / 16777216 * 16777216 := by
    rw [show FetchCore.jsMask32 8 = (2 ^ 8 - 1) <<< 24 from by decide]
    exact and_highMask v 8 24 (by simpa using hv)
  have e10 : v &&& FetchCore.jsMask32 10 = v / 4194304 * 4194304 := by
    rw [show FetchCore.jsMask32 10 = (2 ^ 10 - 1) <<< 22 from by decide]
    exact and_highMask v 10 22 (by simpa using hv)
  have e12 : v &&& FetchCore.jsMask32 12 = v / 1048576 * 1048576 := by
    rw [show FetchCore.jsMask32 12 = (2 ^ 12 - 1) <<< 20 from by decide]
    exact and_highMask v 12 20 (by simpa using hv)
  have e15 : v &&& FetchCore.jsMask32 15 = v / 131072 * 131072 := by
    rw [show FetchCore.jsMask32 15 = (2 ^ 15 - 1) <<< 17 from by decide]
    exact and_highMask v 15 17 (by simpa using hv)
  have e16 : v &&& FetchCore.jsMask32 16 = v / 65536 * 65536 := by
    rw [show FetchCore.jsMask32 16 = (2 ^ 16 - 1) <<< 16 from by decide]
    exact and_highMask v 16 16 (by simpa using hv)
  have e24 : v &&& FetchCore.jsMask32 24 = v / 256 * 256 := by
    rw [show FetchCore.jsMask32 24 = (2 ^ 24 - 1) <<< 8 from by decide]
    exact and_highMask v 24 8 (by simpa using hv)
  have e4 : v &&& FetchCore.jsMask32 4 = v / 268435456 * 268435456 := by
    rw [show FetchCore.jsMask32 4 = (2 ^ 4 - 1) <<< 28 from by decide]
    exact and_highMask v 4 28 (by simpa using hv)
  have b01 : FetchCore.base4 0 0 0 0 &&& FetchCore.jsMask32 8 = 0 := by decide
  have b02 : FetchCore.base4 10 0 0 0 &&& FetchCore.jsMask32 8 = 167772160 := by decide
  have b03 : FetchCore.base4 100 64 0 0 &&& FetchCore.jsMask32 10 = 1681915904 := by decide
  have b04 : FetchCore.base4 127 0 0 0 &&& FetchCore.jsMask32 8 = 2130706432 := by decide
  have b05 : FetchCore.base4 169 254 0 0 &&& FetchCore.jsMask32 16 = 2851995648 := by decide
  have b06 : FetchCore.base4 172 16 0 0 &&& FetchCore.jsMask32 12 = 2886729728 := by decide
  have b07 : FetchCore.base4 192 168 0 0 &&& FetchCore.jsMask32 16 = 3232235520 := by decide
  have b08 : FetchCore.base4 192 0 0 0 &&& FetchCore.jsMask32 24 = 3221225472 := by decide
  have b09 : FetchCore.base4 192 0 2 0 &&& FetchCore.jsMask32 24 = 3221225984 := by decide
  have b10 : FetchCore.base4 198 18 0 0 &&& FetchCore.jsMask32 15 = 3323068416 := by decide
  have b11 : FetchCore.base4 198 51 100 0 &&& FetchCore.jsMask32 24 = 3325256704 := by decide
  have b12 : FetchCore.base4 203 0 113 0 &&& FetchCore.jsMask32 24 = 3405803776 := by decide
  have b13 : FetchCore.base4 224 0 0 0 &&& FetchCore.jsMask32 4 = 3758096384 := by decide
  have b14 : FetchCore.base4 240 0 0 0 &&& FetchCore.jsMask32 4 = 4026531840 := by decide
  simp only [FetchCore.ipv4PrivateTable, FetchCore.inCidr4, e8, e10, e12, e15, e16, e24, e4,
    b01, b02, b03, b04, b05, b06, b07, b08, b09, b10, b11, b12, b13, b14,
    Bool.or_eq_true, beq_iff_eq, specPrivateV4]
  omega

/-- Decimal digits render as digit characters. -/
theorem isDigitChar_digitChar (d : Nat) (h : d ≤ 9) : isDigitChar (digitChar d) = true := by
  interval_cases d <;> decide

/-- Rendering then reading a decimal digit is the identity. -/
theorem digitVal_digitChar (d : Nat) (h : d ≤ 9) : digitVal (digitChar d) = d := by
  interval_cases d <;> decide

/-- A digit character is never a dot. -/
theorem digitChar_ne_dot (d : Nat) (h : d ≤ 9) : digitChar d ≠ '.' := by
  interval_cases d <;> decide

/-- A nonzero digit never renders as `'0'`. -/
theorem digitChar_ne_zero (d : Nat) (h1 : 1 ≤ d) (h2 : d ≤ 9) : digitChar d ≠ '0' := by
  interval_cases d <;> decide

/-- An octet's decimal rendering consists of digits. -/
theorem natDigits255_all_digits (n : Nat) (h : n ≤ 255) :
    (natDigits255 n).all isDigitChar = true := by
  unfold natDigits255
  split
  · simp only [List.all_cons, List.all_nil, Bool.and_true]
    rw [isDigitChar_digitChar _ (by omega), isDigitChar_digitChar _ (by omega),
      isDigitChar_digitChar _ (by omega)]
    rfl
  · split
    · simp only [List.all_cons, List.all_nil, Bool.and_true]
      rw [isDigitChar_digitChar _ (by omega), isDigitChar_digitChar _ (by omega)]
      rfl
    · simp only [List.all_cons, List.all_nil, Bool.and_true]
      rw [isDigitChar_digitChar _ (by omega)]

/-- An octet's decimal rendering contains no dot. -/
theorem natDigits255_not_dot (n : Nat) (h : n ≤ 255) : '.' ∉ natDigits255 n := by
  unfold natDigits255
  split
  · simp only [List.mem_cons, List.not_mem_nil, or_false]
    rintro (hm | hm | hm)
    · exact digitChar_ne_dot _ (by omega) hm.symm
    · exact digitChar_ne_dot _ (by omega) hm.symm
    · exact digitChar_ne_dot _ (by omega) hm.symm
  · split
    · simp only [List.mem_cons, List.not_mem_nil, or_false]
      rintro (hm | hm)
      · exact digitChar_ne_dot _ (by omega) hm.symm
      · exact digitChar_ne_dot _ (by omega) hm.symm
    · simp only [List.mem_cons, List.not_mem_nil, or_false]
      intro hm
      exact digitChar_ne_dot _ (by omega) hm.symm

/-- Reading back an octet's decimal rendering is the identity. -/
theorem decValue_natDigits255 (n : Nat) (h : n ≤ 255) : decValue (natDigits255 n) = n := by
  unfold natDigits255
  split
  · next h1 =>
    show decValueAux _ 0 = n
    simp only [decValueAux]
    rw [digitVal_digitChar _ (by omega), digitVal_digitChar _ (by omega),
      digitVal_digitChar _ (by omega)]
    omega
  · split
    · next h1 h2 =>
      show decValueAux _ 0 = n
      simp only [decValueAux]
      rw [digitVal_digitChar _ (by omega), digitVal_digitChar _ (by omega)]
      omega
    · next h1 h2 =>
      show decValueAux _ 0 = n
      simp only [decValueAux]
      rw [digitVal_digitChar _ (by omega)]
      omega

/-- An octet renders to 1–3 characters. -/
theorem natDigits255_length (n : Nat) (_h : n ≤ 255) :
    1 ≤ (natDigits255 n).length ∧ (natDigits255 n).length ≤ 3 := by
  unfold natDigits255
  split
  · simp
  · split <;> simp

/-- `ipv4ToInt`'s octet parser accepts a rendered octet. -/
theorem parseOctet_natDigits255 (n : Nat) (h : n ≤ 255) :
    FetchCore.parseOctet (natDigits255 n) = some n := by
  unfold FetchCore.parseOctet
  obtain ⟨hl1, hl2⟩ := natDigits255_length n h
  rw [if_pos]
  · rw [decValue_natDigits255 n h, if_pos h]
  · simp only [Bool.and_eq_true, decide_eq_true_eq]
    exact ⟨⟨hl1, hl2⟩, natDigits255_all_digits n h⟩

/-- Splitting a separator-free list yields one piece. -/
theorem splitOnChar_of_not_mem (c : Char) (l : List Char) (h : c ∉ l) :
    splitOnChar c l = [l] := by
  induction l with
  | nil => rfl
  | cons x xs ih =>
    have hx : ¬(x = c) := fun he => h (he ▸ List.mem_cons_self x xs)
    have hxs : c ∉ xs := fun hm => h (List.mem_cons_of_mem x hm)
    unfold splitOnChar
    rw [if_neg hx, ih hxs]

/-- Splitting peels off a separator-free piece before a separator. -/
theorem splitOnChar_append (c : Char) (l rest : List Char) (h : c ∉ l) :
    splitOnChar c (l ++ c :: rest) = l :: splitOnChar c rest := by
  induction l with
  | nil =>
    show splitOnChar c (c :: rest) = [] :: splitOnChar c rest
    conv_lhs => rw [splitOnChar]
    rw [if_pos rfl]
  | cons x xs ih =>
    have hx : ¬(x = c) := fun he => h (he ▸ List.mem_cons_self x xs)
    have hxs : c ∉ xs := fun hm => h (List.mem_cons_of_mem x hm)
    show splitOnChar c (x :: (xs ++ c :: rest)) = (x :: xs) :: splitOnChar c rest
    conv_lhs => rw [splitOnChar]
    rw [if_neg hx, ih hxs]

/-- The rebuilt dotted quad splits into its four octet renderings. -/
theorem splitOnChar_v4ToDotted (m : Nat) :
    splitOnChar '.' (FetchCore.v4ToDotted m) =
      [natDigits255 ((m >>> 24) &&& 255), natDigits255 ((m >>> 16) &&& 255),
       natDigits255 ((m >>> 8) &&& 255), natDigits255 (m &&& 255)] := by
  have hb : ∀ x : Nat, x &&& 255 ≤ 255 := fun x => Nat.and_le_right
  unfold FetchCore.v4ToDotted
  rw [splitOnChar_append _ _ _ (natDigits255_not_dot _ (hb _)),
    splitOnChar_append _ _ _ (natDigits255_not_dot _ (hb _)),
    splitOnChar_append _ _ _ (natDigits255_not_dot _ (hb _)),
    splitOnChar_of_not_mem _ _ (natDigits255_not_dot _ (hb _))]

/-- An or with disjoint low bits is an addition. -/
theorem or_low_eq_add (a b k : Nat) (hb : b < 2 ^ k) : (a <<< k) ||| b = a * 2 ^ k + b := by
  rw [Nat.shiftLeft_eq, Nat.mul_comm (a) (2 ^ k), ← Nat.mul_add_lt_is_or hb, Nat.mul_comm]

/-- One step of the `ipv4ToInt` loop in arithmetic form. -/
theorem ipv4Accum_step (v o : Nat) (ho : o ≤ 255) (hv : v < 16777216) :
    ((v <<< 8) % 4294967296) ||| o = v * 256 + o := by
  have hsh : (v <<< 8) % 4294967296 = v <<< 8 := by
    rw [Nat.shiftLeft_eq]
    exact Nat.mod_eq_of_lt (by norm_num; omega)
  rw [hsh, or_low_eq_add v o 8 (by omega)]
  norm_num

/-- The full `ipv4ToInt` loop over four rendered octets computes the
big-endian 32-bit value. -/
theorem ipv4Accum_octets (o1 o2 o3 o4 : Nat) (h1 : o1 ≤ 255) (h2 : o2 ≤ 255)
    (h3 : o3 ≤ 255) (h4 : o4 ≤ 255) :
    FetchCore.ipv4Accum
        [natDigits255 o1, natDigits255 o2, natDigits255 o3, natDigits255 o4] 0 =
      some (((o1 * 256 + o2) * 256 + o3) * 256 + o4) := by
  simp only [FetchCore.ipv4Accum, parseOctet_natDigits255 _ h1, parseOctet_natDigits255 _ h2,
    parseOctet_natDigits255 _ h3, parseOctet_natDigits255 _ h4]
  have e1 : ((0 <<< 8) % 4294967296) ||| o1 = o1 := by
    rw [ipv4Accum_step 0 o1 h1 (by omega)]
    omega
  rw [e1]
  rw [ipv4Accum_step o1 o2 h2 (by omega)]
  rw [ipv4Accum_step (o1 * 256 + o2) o3 h3 (by omega)]
  rw [ipv4Accum_step ((o1 * 256 + o2) * 256 + o3) o4 h4 (by omega)]

/-- `ipv4ToInt` inverts the dotted-quad rendering: the recursive
`isPrivateIp(ip4)` call on a mapped address re-checks exactly the
embedded 32-bit value. -/
theorem ipv4ToIntL_v4ToDotted (m : Nat) (hm : m < 4294967296) :
    FetchCore.ipv4ToIntL (FetchCore.v4ToDotted m) = some m := by
  have hb : ∀ x : Nat, x &&& 255 ≤ 255 := fun x => Nat.and_le_right
  have hmod : ∀ x : Nat, x &&& 255 = x % 256 := fun x => by
    have h := Nat.and_pow_two_sub_one_eq_mod x 8
    norm_num at h
    exact h
  unfold FetchCore.ipv4ToIntL
  rw [splitOnChar_v4ToDotted m]
  rw [if_neg (by simp)]
  rw [ipv4Accum_octets _ _ _ _ (hb _) (hb _) (hb _) (hb _)]
  congr 1
  have s24 : m >>> 24 &&& 255 = m / 16777216 % 256 := by
    rw [hmod, Nat.shiftRight_eq_div_pow]
  have s16 : m >>> 16 &&& 255 = m / 65536 % 256 := by
    rw [hmod, Nat.shiftRight_eq_div_pow]
  have s8 : m >>> 8 &&& 255 = m / 256 % 256 := by
    rw [hmod, Nat.shiftRight_eq_div_pow]
  have s0 : m &&& 255 = m % 256 := hmod m
  rw [s24, s16, s8, s0]
  omega

/-- A rendered octet is a valid segment of Node's IPv4 regex. -/
theorem isV4SegL_natDigits255 (n : Nat) (h : n ≤ 255) :
    FetchCore.isV4SegL (natDigits255 n) = true := by
  have hall := natDigits255_all_digits n h
  have hdec := decValue_natDigits255 n h
  obtain ⟨hl1, hl2⟩ := natDigits255_length n h
  have hhead : (natDigits255 n).length = 1 ∨ (natDigits255 n).head? ≠ some '0' := by
    unfold natDigits255
    split
    · right
      simp only [List.head?_cons, ne_eq, Option.some.injEq]
      exact digitChar_ne_zero _ (by omega) (by omega)
    · split
      · right
        simp only [List.head?_cons, ne_eq, Option.some.injEq]
        exact digitChar_ne_zero _ (by omega) (by omega)
      · left
        rfl
  unfold FetchCore.isV4SegL
  rcases hhead with h1 | h1
  · simp [hall, hdec, hl1, hl2, h, h1]
  · simp [hall, hdec, hl1, hl2, h, h1]

/-- The dotted quad rebuilt for an IPv4-mapped address is always a valid
IPv4 literal for `net.isIP`, so the source's recursive
`isPrivateIp(ip4)` call always takes the `version === 4` branch. -/
theorem netIsIPv4L_v4ToDotted (m : Nat) :
    FetchCore.netIsIPv4L (FetchCore.v4ToDotted m) = true := by
  have hb : ∀ x : Nat, x &&& 255 ≤ 255 := fun x => Nat.and_le_right
  unfold FetchCore.netIsIPv4L
  rw [splitOnChar_v4ToDotted]
  simp [isV4SegL_natDigits255 _ (hb _)]

/-- The `ipv4ToInt` accumulator stays below `2^32`. -/
theorem ipv4Accum_lt (ps : List (List Char)) (value : Nat) (hv : value < 4294967296)
    (v : Nat) (h : FetchCore.ipv4Accum ps value = some v) : v < 4294967296 := by
  induction ps generalizing value with
  | nil =>
    simp only [FetchCore.ipv4Accum, Option.some.injEq] at h
    omega
  | cons p rest ih =>
    simp only [FetchCore.ipv4Accum] at h
    cases hp : FetchCore.parseOctet p with
    | none => rw [hp] at h; cases h
    | some n =>
      rw [hp] at h
      refine ih _ ?_ h
      have h1 : (value <<< 8) % 4294967296 < 4294967296 := Nat.mod_lt _ (by norm_num)
      have h2 : n < 4294967296 := by
        have hq : FetchCore.parseOctet p = some n := hp
        unfold FetchCore.parseOctet at hq
        split at hq
        · split at hq
          · simp only [Option.some.injEq] at hq
            next hle _ => omega
          · cases hq
        · cases hq
      calc ((value <<< 8) % 4294967296) ||| n < 2 ^ 32 :=
            Nat.or_lt_two_pow (by norm_num; omega) (by norm_num; omega)
        _ = 4294967296 := by norm_num

/-- `ipv4ToInt` values are 32-bit. -/
theorem ipv4ToIntL_lt (l : List Char) (v : Nat) (h : FetchCore.ipv4ToIntL l = some v) :
    v < 4294967296 := by
  unfold FetchCore.ipv4ToIntL at h
  split at h
  · cases h
  · exact ipv4Accum_lt _ 0 (by norm_num) v h

/-- The IPv4 branch of `isPrivateIp` agrees with the spec's IPv4
table. -/
theorem isPrivateIp_v4_iff (s : String) (v : Nat)
    (h4 : FetchCore.netIsIPv4L s.toList = true) (hv : FetchCore.ipv4ToInt s = some v) :
    (FetchCore.isPrivateIp s = .ok true ↔ specPrivateV4 v) := by
  have hlt : v < 4294967296 := ipv4ToIntL_lt _ _ hv
  have hstr : FetchCore.isPrivateIpv4StrL s.toList = FetchCore.ipv4PrivateTable v := by
    unfold FetchCore.isPrivateIpv4StrL
    rw [show FetchCore.ipv4ToIntL s.toList = some v from hv]
  have hres : FetchCore.isPrivateIp s = .ok (FetchCore.ipv4PrivateTable v) := by
    unfold FetchCore.isPrivateIp FetchCore.isPrivateIpL
    rw [h4, if_pos rfl, hstr]
  rw [hres]
  rw [show (Except.ok (FetchCore.ipv4PrivateTable v) =
        (Except.ok true : Except ToolError Bool)) ↔
      (FetchCore.ipv4PrivateTable v = true) from by
    constructor
    · intro hh; injection hh
    · intro hh; rw [hh]]
  exact ipv4Table_iff v hlt

/-- The IPv6 branch of `isPrivateIp` agrees with the spec's IPv6 table,
including the IPv4-mapped unwrap. -/
theorem isPrivateIp_v6_iff (s : String) (addr : Nat)
    (h4 : FetchCore.netIsIPv4L s.toList = false) (h6 : FetchCore.netIsIPv6L s.toList = true)
    (ha : FetchCore.ipv6ToBigInt s = .ok addr) :
    (FetchCore.isPrivateIp s = .ok true ↔ specPrivateV6 addr) := by
  have hstep : FetchCore.isPrivateIp s =
      (if addr = 0 ∨ addr = 1 then .ok true
       else if addr >>> 32 = 65535 then
         .ok (FetchCore.isPrivateIpv4StrL (FetchCore.v4ToDotted (addr &&& 4294967295)))
       else
         .ok (FetchCore.ipv6InCidr addr 0xfc000000000000000000000000000000 7 ||
              FetchCore.ipv6InCidr addr 0xfe800000000000000000000000000000 10 ||
              FetchCore.ipv6InCidr addr 0xff000000000000000000000000000000 8 ||
              FetchCore.ipv6InCidr addr 0x20010db8000000000000000000000000 32)) := by
    unfold FetchCore.isPrivateIp FetchCore.isPrivateIpL
    rw [if_neg (fun hq => by rw [hq] at h4; exact Bool.noConfusion h4), if_pos h6,
      show FetchCore.ipv6ToBigIntL s.toList = Except.ok addr from ha]
    rfl
  have hdiveq : addr >>> 32 = addr / 4294967296 := by
    rw [Nat.shiftRight_eq_div_pow]
  by_cases h01 : addr = 0 ∨ addr = 1
  · rw [hstep, if_pos h01]
    constructor
    · intro _
      rcases h01 with h | h
      · exact Or.inl h
      · exact Or.inr (Or.inl h)
    · intro _
      rfl
  · by_cases hm : addr >>> 32 = 65535
    · rw [hstep, if_neg h01, if_pos hm]
      have hand : addr &&& 4294967295 = addr % 4294967296 := by
        have hq := Nat.and_pow_two_sub_one_eq_mod addr 32
        norm_num at hq
        exact hq
      have hlt : addr % 4294967296 < 4294967296 := Nat.mod_lt _ (by norm_num)
      have hstr : FetchCore.isPrivateIpv4StrL
          (FetchCore.v4ToDotted (addr &&& 4294967295)) =
          FetchCore.ipv4PrivateTable (addr % 4294967296) := by
        unfold FetchCore.isPrivateIpv4StrL
        rw [hand, ipv4ToIntL_v4ToDotted _ hlt]
      rw [hstr]
      have hdiv : addr / 4294967296 = 65535 := by rw [← hdiveq]; exact hm
      constructor
      · intro hok
        injection hok with hb
        exact Or.inr (Or.inr (Or.inl ⟨hm, (ipv4Table_iff _ hlt).mp hb⟩))
      · intro hs
        rcases hs with h | h | ⟨-, h⟩ | ⟨h, -⟩ | ⟨h, -⟩ | ⟨h, -⟩ | ⟨h, -⟩
        · omega
        · omega
        · rw [(ipv4Table_iff _ hlt).mpr h]
        · omega
        · omega
        · omega
        · omega
    · rw [hstep, if_neg h01, if_neg hm]
      have hdiv : addr / 4294967296 ≠ 65535 := by rw [← hdiveq]; exact hm
      push_neg at h01
      have c1 : FetchCore.ipv6InCidr addr 0xfc000000000000000000000000000000 7 = true ↔
          (0xfc000000000000000000000000000000 ≤ addr ∧
            addr < 0xfe000000000000000000000000000000) := by
        simp only [FetchCore.ipv6InCidr, beq_iff_eq, Nat.shiftRight_eq_div_pow]
        norm_num
        omega
      have c2 : FetchCore.ipv6InCidr addr 0xfe800000000000000000000000000000 10 = true ↔
          (0xfe800000000000000000000000000000 ≤ addr ∧
            addr < 0xfec00000000000000000000000000000) := by
        simp only [FetchCore.ipv6InCidr, beq_iff_eq, Nat.shiftRight_eq_div_pow]
        norm_num
        omega
      have c3 : FetchCore.ipv6InCidr addr 0xff000000000000000000000000000000 8 = true ↔
          (0xff000000000000000000000000000000 ≤ addr ∧
            addr < 0x100000000000000000000000000000000) := by
        simp only [FetchCore.ipv6InCidr, beq_iff_eq, Nat.shiftRight_eq_div_pow]
        norm_num
        omega
      have c4 : FetchCore.ipv6InCidr addr 0x20010db8000000000000000000000000 32 = true ↔
          (0x20010db8000000000000000000000000 ≤ addr ∧
            addr < 0x20010db9000000000000000000000000) := by
        simp only [FetchCore.ipv6InCidr, beq_iff_eq, Nat.shiftRight_eq_div_pow]
        norm_num
        omega
      constructor
      · intro hok
        injection hok with hb
        simp only [Bool.or_eq_true] at hb
        rcases hb with ((hb | hb) | hb) | hb
        · exact Or.inr (Or.inr (Or.inr (Or.inl (c1.mp hb))))
        · exact Or.inr (Or.inr (Or.inr (Or.inr (Or.inl (c2.mp hb)))))
        · exact Or.inr (Or.inr (Or.inr (Or.inr (Or.inr (Or.inl (c3.mp hb))))))
        · exact Or.inr (Or.inr (Or.inr (Or.inr (Or.inr (Or.inr (c4.mp hb))))))
      · intro hs
        rcases hs with h | h | ⟨h, -⟩ | h | h | h | h
        · exact absurd h h01.1
        · exact absurd h h01.2
        · exact absurd (hdiveq ▸ h) hdiv
        · rw [c1.mpr h]
          simp
        · rw [c2.mpr h]
          simp
        · rw [c3.mpr h]
          simp
        · rw [c4.mpr h]
          simp

/-- C4: `isPrivateIp` returns true exactly on the spec's private/
reserved tables — for every IPv4 literal, membership of its 32-bit
value in the listed CIDR blocks; for every IPv6 literal, membership of
its 128-bit value in the listed ranges with IPv4-mapped addresses
unwrapped and re-checked against the IPv4 table — and in particular the
listed sample addresses classify as stated. -/
theorem claim_C4 :
    (∀ (ip : String) (v : Nat), FetchCore.netIsIP ip = 4 → FetchCore.ipv4ToInt ip = some v →
       (FetchCore.isPrivateIp ip = .ok true ↔ specPrivateV4 v)) ∧
    (∀ (ip : String) (addr : Nat), FetchCore.netIsIP ip = 6 →
       FetchCore.ipv6ToBigInt ip = .ok addr →
       (FetchCore.isPrivateIp ip = .ok true ↔ specPrivateV6 addr)) ∧
    FetchCore.isPrivateIp "127.0.0.1" = .ok true ∧
    FetchCore.isPrivateIp "10.0.0.1" = .ok true ∧
    FetchCore.isPrivateIp "192.168.1.1" = .ok true ∧
    FetchCore.isPrivateIp "::1" = .ok true ∧
    FetchCore.isPrivateIp "fc00::1" = .ok true ∧
    FetchCore.isPrivateIp "fe80::1" = .ok true ∧
    FetchCore.isPrivateIp "8.8.8.8" = .ok false := by
  refine ⟨?_, ?_, rfl, rfl, rfl, rfl, rfl, rfl, rfl⟩
  · intro ip v hip hv
    have h4 : FetchCore.netIsIPv4L ip.data = true := by
      cases b : FetchCore.netIsIPv4L ip.data with
      | true => rfl
      | false =>
        exfalso
        cases c : FetchCore.netIsIPv6L ip.data with
        | true => simp [FetchCore.netIsIP, b, c] at hip
        | false => simp [FetchCore.netIsIP, b, c] at hip
    exact isPrivateIp_v4_iff ip v h4 hv
  · intro ip addr hip ha
    have h4 : FetchCore.netIsIPv4L ip.data = false := by
      cases b : FetchCore.netIsIPv4L ip.data with
      | true =>
        exfalso
        simp [FetchCore.netIsIP, b] at hip
      | false => rfl
    have h6 : FetchCore.netIsIPv6L ip.data = true := by
      cases c : FetchCore.netIsIPv6L ip.data with
      | true => rfl
      | false =>
        exfalso
        simp [FetchCore.netIsIP, h4, c] at hip
    exact isPrivateIp_v6_iff ip addr h4 h6 ha

theorem claim_C4_witness :
    FetchCore.netIsIP "10.0.0.1" = 4 ∧ FetchCore.ipv4ToInt "10.0.0.1" = some 167772161 ∧
    (FetchCore.isPrivateIp "10.0.0.1" = .ok true ↔ specPrivateV4 167772161) ∧
    FetchCore.netIsIP "::ffff:8.8.8.8" = 6 ∧
    FetchCore.ipv6ToBigInt "::ffff:8.8.8.8" = .ok 281470816487432 ∧
    (FetchCore.isPrivateIp "::ffff:8.8.8.8" = .ok true ↔ specPrivateV6 281470816487432) :=
  ⟨by decide, rfl, claim_C4.1 "10.0.0.1" 167772161 (by decide) rfl,
   by decide, rfl, claim_C4.2.1 "::ffff:8.8.8.8" 281470816487432 (by decide) rfl⟩
